import Mathlib

/-!
Verification development for the EP-engine durability/failover/collections core.

Shallow embedding of:
  * `FailoverTable` (engines/ep/src, failover-table implementation),
  * `Collections::Manifest` (engines/ep/src, collections manifest),
  * `ActiveDurabilityMonitor` (engines/ep/src/durability/active_durability_monitor.cc).

Conventions of the embedding:
  * C++ iterators into `std::list` are represented as `Option Nat` indices into a
    `List`: `none` stands for `Container::end`, `some i` for an iterator at the
    element currently at index `i`.  Removing the element at index `r` shifts
    every iterator index `> r` down by one (the iterator keeps pointing at the
    same element), exactly as a `std::list` splice keeps iterators valid.
  * `throw` statements are modelled with `Except`: an operation that throws
    returns `.error` and, since the sources throw before mutating, the caller's
    state is unchanged.
  * The `Monotonic`/`WeaklyMonotonic` wrapper types (monotonic.h, not part of
    the examined sources) are modelled as plain assignments; the specification
    describes their checks as debug-build runtime assertions.
  * Random UUID generation (`provider.next() >> 16` with regeneration while the
    draw is zero) is modelled by passing the generated UUID as an argument; the
    regeneration loop guarantees it is nonzero, so theorems take that as a
    hypothesis.
  * The monotonic clock is modelled by passing `now` as an argument.
-/

/-- JSON values as consumed by the repository's nlohmann-based loaders. -/
inductive Json where
  | null
  | bool (b : Bool)
  | num (n : Nat)
  | str (s : String)
  | arr (elems : List Json)
  | obj (fields : List (String × Json))

/-- `nlohmann::json::find` on an object's fields (first match). -/
def Json.find (fields : List (String × Json)) (key : String) : Option Json :=
  match fields with
  | [] => none
  | (k, v) :: rest => if k = key then some v else Json.find rest key

/-- One entry of the failover table: `failover_entry_t` (vb_uuid, by_seqno). -/
structure FailoverEntry where
  vb_uuid : Nat
  by_seqno : Nat
  deriving DecidableEq

/-- Error kind raised by FailoverTable operations (`std::invalid_argument`). -/
inductive FtErr where
  | invalidArgument (msg : String)
  deriving DecidableEq

/-- JSON dump of one entry, mirroring `FailoverTable::cacheTableJSON`
(nlohmann object dump; keys "id" < "seq" are emitted in sorted order). -/
def dumpEntry (e : FailoverEntry) : String :=
  "\x7b\"id\":" ++ toString e.vb_uuid ++ ",\"seq\":" ++ toString e.by_seqno ++ "\x7d"

/-- JSON dump of the whole table, mirroring `FailoverTable::cacheTableJSON`. -/
def dumpTable (t : List FailoverEntry) : String :=
  "[" ++ String.intercalate "," (t.map dumpEntry) ++ "]"

/-- The FailoverTable state: the entry list (newest at the front), the
configured capacity, the cached latest UUID, the cached JSON dump, and the
count of erroneous entries erased by sanitization. -/
structure FailoverTable where
  table : List FailoverEntry
  max_entries : Nat
  latest_uuid : Nat
  cachedTableJSON : String
  erroneousEntriesErased : Nat
  deriving DecidableEq

namespace FailoverTable

/-- `FailoverTable::createEntry(high_seqno)`.  `newUuid` is the UUID produced
by the 48-bit random draw (regenerated while zero, hence nonzero in the
source).  Removes diverged entries (`by_seqno > high_seqno`), pushes the new
entry at the front, caps the size at `max_entries` by popping from the back,
updates `latest_uuid` and the cached JSON. -/
def createEntry (newUuid high_seqno : Nat) (st : FailoverTable) : FailoverTable :=
  let t0 := st.table.filter (fun e => !(decide (e.by_seqno > high_seqno)))
  let t1 := ({ vb_uuid := newUuid, by_seqno := high_seqno } : FailoverEntry) :: t0
  let t2 := t1.take st.max_entries
  { st with table := t2, latest_uuid := newUuid, cachedTableJSON := dumpTable t2 }

/-- The constructor `FailoverTable(capacity)`: a single synthetic entry at
seqno 0 (uuid drawn at random, nonzero). -/
def create (newUuid capacity : Nat) : FailoverTable :=
  createEntry newUuid 0
    { table := [], max_entries := capacity, latest_uuid := 0,
      cachedTableJSON := "", erroneousEntriesErased := 0 }

/-- `FailoverTable::removeLatestEntry`: pop the front entry if the table is
nonempty (note: `latest_uuid` is not refreshed by the source). -/
def removeLatestEntry (st : FailoverTable) : FailoverTable :=
  match st.table with
  | [] => st
  | _ :: rest => { st with table := rest, cachedTableJSON := dumpTable rest }

/-- `FailoverTable::pruneEntries(seqno)`: refuse seqno 0, refuse when fewer
than one entry would survive, otherwise drop every entry with
`by_seqno > seqno`. -/
def pruneEntries (st : FailoverTable) (seqno : Nat) : Except FtErr FailoverTable :=
  if seqno = 0 then
    .error (.invalidArgument "FailoverTable::pruneEntries: cannot prune entry zero")
  else
    -- `count` in the source: how many entries the prune would remove
    if st.table.length - st.table.countP (fun e => decide (e.by_seqno > seqno)) < 1 then
      .error (.invalidArgument
        ("FailoverTable::pruneEntries: cannot prune up to seqno " ++ toString seqno ++
          " as it would result in less than one element in failover table"))
    else
      match st.table.filter (fun e => !(decide (e.by_seqno > seqno))) with
      | [] =>
        -- unreachable: the survivor count check above guarantees nonemptiness
        -- (in the source this branch would be `table.front()` on an empty list)
        .error (.invalidArgument "unreachable")
      | e :: rest =>
        .ok { st with table := e :: rest, latest_uuid := e.vb_uuid,
                      cachedTableJSON := dumpTable (e :: rest) }

/-- Big-endian decode of a byte list (`ntohll` applied to 8 copied bytes). -/
def beU64 (l : List Nat) : Nat :=
  l.foldl (fun a b => a * 256 + b % 256) 0

/-- Decode the 16-byte record starting at offset `off`: 8-byte big-endian
UUID followed by 8-byte big-endian seqno. -/
def decodeAt (bytes : List Nat) (off : Nat) : FailoverEntry :=
  { vb_uuid := beU64 ((bytes.drop off).take 8),
    by_seqno := beU64 ((bytes.drop (off + 8)).take 8) }

/-- The record loop of `FailoverTable::replaceFailoverLog`: the source walks
`length` down in steps of 16, each iteration reading the record at offset
`length - 16` and pushing it at the front (so the record at the start of the
buffer is pushed last and ends up at the front).  Here the loop variable is
the number `k` of records still to process, i.e. `length = 16 * k`; the
iteration with `k + 1` records left reads the record at offset
`16 * (k + 1) - 16 = 16 * k`. -/
def replaceLoop (bytes : List Nat) : Nat → List FailoverEntry → List FailoverEntry
  | 0, table => table
  | k + 1, table => replaceLoop bytes k (decodeAt bytes (16 * k) :: table)

/-- `FailoverTable::replaceFailoverLog(bytes, length)`: `length` must be a
nonzero multiple of 16; the table is replaced by the decoded records. -/
def replaceFailoverLog (bytes : List Nat) (st : FailoverTable) :
    Except FtErr FailoverTable :=
  if bytes.length % 16 ≠ 0 ∨ bytes.length = 0 then
    .error (.invalidArgument
      ("FailoverTable::replaceFailoverLog: length (which is " ++
        toString bytes.length ++ ") must be a non-zero multiple of 16"))
  else
    let t := replaceLoop bytes (bytes.length / 16) []
    match t with
    | [] =>
      -- unreachable: a nonzero multiple of 16 decodes to at least one record
      -- (in the source this branch would be `table.front()` on an empty list)
      .error (.invalidArgument "unreachable")
    | e :: rest =>
      .ok { st with table := e :: rest, latest_uuid := e.vb_uuid,
                    cachedTableJSON := dumpTable (e :: rest) }

/-- The erase loop of `FailoverTable::sanitizeFailoverTable`: drop entries
with `vb_uuid == 0` and entries whose seqno exceeds the seqno of the previous
kept entry.  `prev` carries the seqno of the last kept entry (none while no
entry has been kept yet, i.e. while the iterator is at `begin`). -/
def sanitizeLoop : Option Nat → List FailoverEntry → List FailoverEntry
  | _, [] => []
  | prev, e :: rest =>
    if e.vb_uuid = 0 then sanitizeLoop prev rest
    else
      match prev with
      | none => e :: sanitizeLoop (some e.by_seqno) rest
      | some p =>
        if e.by_seqno > p then sanitizeLoop (some p) rest
        else e :: sanitizeLoop (some e.by_seqno) rest

/-- `FailoverTable::sanitizeFailoverTable(highSeqno)`: erase erroneous
entries; if the table became empty, create a fresh entry at `highSeqno`
(`newUuid` is the random nonzero UUID that draw would produce); if anything
was erased, refresh the cached JSON. -/
def sanitizeFailoverTable (newUuid : Nat) (highSeqno : Nat) (st : FailoverTable) :
    FailoverTable :=
  let t := sanitizeLoop none st.table
  let erased := st.table.length - t.length
  let st1 := { st with table := t,
                       erroneousEntriesErased := st.erroneousEntriesErased + erased }
  if t = [] then createEntry newUuid highSeqno st1
  else if erased ≠ 0 then { st1 with cachedTableJSON := dumpTable t }
  else st1

/-- The entry-building loop of `FailoverTable::loadFromJSON(nlohmann::json)`:
every element must be an object with numeric "id" and "seq" fields. -/
def parseEntries : List Json → Option (List FailoverEntry)
  | [] => some []
  | j :: rest =>
    match j with
    | .obj fields =>
      match Json.find fields "id", Json.find fields "seq" with
      | some (.num id), some (.num seq) =>
        (parseEntries rest).map
          (fun t => ({ vb_uuid := id, by_seqno := seq } : FailoverEntry) :: t)
      | _, _ => none
    | _ => none

/-- `FailoverTable::loadFromJSON(const nlohmann::json&)`: validate the parsed
document; on success install the new table and latest UUID (this overload
does not touch the cached JSON), on failure leave the state untouched. -/
def loadFromJSONParsed (st : FailoverTable) : Json → Bool × FailoverTable
  | .arr elems =>
    (match parseEntries elems with
     | none => (false, st)
     | some [] => (false, st)
     | some (e :: rest) =>
       (true, { st with table := e :: rest, latest_uuid := e.vb_uuid }))
  | _ => (false, st)

/-- `FailoverTable::loadFromJSON(const std::string&)`: `parsed` is the outcome
of the external `nlohmann::json::parse` on `raw` (`none` on a parse error).
On a parse error nothing is mutated; otherwise the validation overload runs
and the cached JSON is overwritten with `raw` regardless of its result. -/
def loadFromJSONString (st : FailoverTable) (raw : String) (parsed : Option Json) :
    Bool × FailoverTable :=
  match parsed with
  | none => (false, st)
  | some p =>
    let r := loadFromJSONParsed st p
    (r.1, { r.2 with cachedTableJSON := raw })

/-- `FailoverTable::adjustSnapshotRange`. -/
def adjustSnapshotRange (start_seqno snap_start_seqno snap_end_seqno : Nat) :
    Nat × Nat :=
  if start_seqno = snap_end_seqno then (start_seqno, snap_end_seqno)
  else if start_seqno = snap_start_seqno then (snap_start_seqno, start_seqno)
  else (snap_start_seqno, snap_end_seqno)

/-- The branch-lookup loop of `FailoverTable::needsRollback`, expressed on the
reversed table (the source iterates `rbegin()`..`rend()`, i.e. oldest entry
first).  Returns `none` when `vb_uuid` is not present; otherwise the `upper`
seqno: the `by_seqno` of the next newer entry when one exists, else
`cur_seqno`. -/
def branchUpperRev (cur_seqno vb_uuid : Nat) : List FailoverEntry → Option Nat
  | [] => none
  | e :: rest =>
    if e.vb_uuid = vb_uuid then
      match rest with
      | [] => some cur_seqno
      | e2 :: _ => some e2.by_seqno
    else branchUpperRev cur_seqno vb_uuid rest

/-- `FailoverTable::needsRollback`.  The result is the `(bool, string)` pair
returned by the source together with the final value of the `*rollback_seqno`
out-parameter (`none` when the source never writes it, i.e. on the first
early return). -/
def needsRollback (st : FailoverTable) (start_seqno cur_seqno vb_uuid
    snap_start_seqno snap_end_seqno purge_seqno : Nat) (strictVbUuidMatch : Bool)
    (maxCollectionHighSeqno : Option Nat) : (Bool × String) × Option Nat :=
  if start_seqno = 0 ∧ (¬ strictVbUuidMatch ∨ vb_uuid = 0) then
    ((false, ""), none)
  else
    let snaps := adjustSnapshotRange start_seqno snap_start_seqno snap_end_seqno
    let snap_start_seqno := snaps.1
    let snap_end_seqno := snaps.2
    let allowNonRollBackCollectionStream : Bool :=
      match maxCollectionHighSeqno with
      | some m =>
        decide (start_seqno < purge_seqno ∧ start_seqno ≥ m ∧ m ≤ purge_seqno)
      | none => false
    if start_seqno < purge_seqno ∧ start_seqno ≠ 0 ∧
        allowNonRollBackCollectionStream = false then
      ((true, "purge seqno (" ++ toString purge_seqno ++
        ") is greater than start seqno - could miss purged deletions"), some 0)
    else
      match branchUpperRev cur_seqno vb_uuid st.table.reverse with
      | none =>
        ((true, "vBucket UUID not found in failover table, consumer and producer have no common history"),
          some 0)
      | some upper =>
        if snap_end_seqno ≤ upper then ((false, ""), some 0)
        else if upper < snap_start_seqno then
          ((true, "consumer ahead of producer - producer upper at " ++ toString upper),
            some upper)
        else
          ((true, "consumer ahead of producer - producer upper at " ++ toString upper),
            some snap_start_seqno)

end FailoverTable

/-- First-match association lookup (models `find`/`at`/`count` on the C++
`std::map`/`std::unordered_map` keyed containers). -/
def assocFind {κ α : Type} [DecidableEq κ] (l : List (κ × α)) (k : κ) : Option α :=
  match l with
  | [] => none
  | (k', v) :: rest => if k' = k then some v else assocFind rest k

/-- Update the value stored under key `k` (first match) in place. -/
def assocUpdate {κ α : Type} [DecidableEq κ] (l : List (κ × α)) (k : κ) (f : α → α) :
    List (κ × α) :=
  match l with
  | [] => []
  | (k', v) :: rest =>
    if k' = k then (k', f v) :: rest else (k', v) :: assocUpdate rest k f

namespace Collections

/-- `Collections::CollectionEntry`: a collection as listed inside a scope. -/
structure CollectionEntry where
  id : Nat
  maxTtl : Option Nat
  deriving DecidableEq

/-- `Collections::Scope`: name plus the collections it owns. -/
structure Scope where
  name : String
  collections : List CollectionEntry
  deriving DecidableEq

/-- `Manifest::Collection`: the denormalised per-collection record
(owning scope id and name). -/
structure ManifestCollection where
  sid : Nat
  name : String
  deriving DecidableEq

/-- The engine error codes `isSuccessor` can produce. -/
inductive EngineErrc where
  | success
  | cannot_apply_collections_manifest
  deriving DecidableEq

/-- `cb::engine_error`: a code together with a descriptive message. -/
structure EngineError where
  code : EngineErrc
  msg : String
  deriving DecidableEq

/-- `Collections::Manifest` (the fields `isSuccessor` and `operator==`
consult). -/
structure Manifest where
  defaultCollectionExists : Bool
  scopes : List (Nat × Scope)
  collections : List (Nat × ManifestCollection)
  uid : Nat
  deriving DecidableEq

/-- `Collections::CollectionEntry::operator==` compares `id` and `maxTtl`,
i.e. all fields, so it is structural equality; `Scope::operator==` compares
names, sizes, and membership of each entry. -/
def Scope.eqB (a b : Scope) : Bool :=
  decide (a.name = b.name) && decide (a.collections.length = b.collections.length) &&
    a.collections.all (fun c => decide (c ∈ b.collections))

/-- `std::unordered_map` equality on the scopes map: same size, and every
key of the left map is mapped in the right map to an `==`-equal `Scope`. -/
def scopesEqB (a b : List (Nat × Scope)) : Bool :=
  decide (a.length = b.length) &&
    a.all (fun p =>
      match assocFind b p.1 with
      | some s => Scope.eqB p.2 s
      | none => false)

/-- `std::unordered_map` equality on the collections map
(`Manifest::Collection::operator==` compares `sid` and `name`, i.e. all
fields). -/
def collectionsEqB (a b : List (Nat × ManifestCollection)) : Bool :=
  decide (a.length = b.length) &&
    a.all (fun p =>
      match assocFind b p.1 with
      | some c => decide (p.2 = c)
      | none => false)

/-- `Manifest::operator==`. -/
def Manifest.eqB (a b : Manifest) : Bool :=
  decide (a.defaultCollectionExists = b.defaultCollectionExists) &&
    decide (a.uid = b.uid) &&
    scopesEqB a.scopes b.scopes && collectionsEqB a.collections b.collections

/-- The scope loop of `Manifest::isSuccessor`: the first scope id of `m` that
survives into `succ` with a different name (the source returns the error for
the first such scope encountered). -/
def scopeViolation (m succ : Manifest) : Option (Nat × Scope × Scope) :=
  m.scopes.findSome? (fun p =>
    match assocFind succ.scopes p.1 with
    | some sc => if p.2.name ≠ sc.name then some (p.1, p.2, sc) else none
    | none => none)

/-- The collection loop of `Manifest::isSuccessor`: the first collection id
of `m` that survives into `succ` with a different name or owning scope. -/
def collectionViolation (m succ : Manifest) :
    Option (Nat × ManifestCollection × ManifestCollection) :=
  m.collections.findSome? (fun p =>
    match assocFind succ.collections p.1 with
    | some c => if p.2 ≠ c then some (p.1, p.2, c) else none
    | none => none)

/-- `Manifest::isSuccessor(successor)`. -/
def Manifest.isSuccessor (m succ : Manifest) : EngineError :=
  if m.uid < succ.uid then
    match scopeViolation m succ with
    | some v =>
      ⟨.cannot_apply_collections_manifest,
        "invalid name change detected on scope sid:" ++ toString v.1 ++
          ", name:" ++ v.2.1.name ++ ", new-name:" ++ v.2.2.name⟩
    | none =>
      match collectionViolation m succ with
      | some v =>
        ⟨.cannot_apply_collections_manifest,
          "invalid collection change detected cid:" ++ toString v.1 ++
            ", name:" ++ v.2.1.name ++ ", sid:" ++ toString v.2.1.sid ++
            ", new-name:" ++ v.2.2.name ++ ", new-sid: " ++ toString v.2.2.sid⟩
      | none => ⟨.success, ""⟩
  else if m.uid = succ.uid then
    if Manifest.eqB m succ then ⟨.success, ""⟩
    else ⟨.cannot_apply_collections_manifest, "equal uid but not an equal manifest"⟩
  else
    ⟨.cannot_apply_collections_manifest,
      "uid must be >= current-uid:" ++ toString m.uid ++
        ", new-uid:" ++ toString succ.uid⟩

end Collections

/-- `cb::durability::Level`. -/
inductive Level where
  | None
  | Majority
  | MajorityAndPersistOnMaster
  | PersistToMajority
  deriving DecidableEq

/-- `DurabilityMonitor::Tracking`: memory or disk tracking. -/
inductive Tracking where
  | Memory
  | Disk
  deriving DecidableEq

/-- `vbucket_state_t` (the values the examined code distinguishes). -/
inductive VBState where
  | active
  | replica
  | pending
  | dead
  deriving DecidableEq

/-- Error kinds thrown by the ADM sources (`std::invalid_argument`,
`std::logic_error`, `std::out_of_range` from `at()`). -/
inductive DmErr where
  | invalidArgument (msg : String)
  | logicError (msg : String)
  | outOfRange (msg : String)
  deriving DecidableEq

/-- The slice of a `queued_item` the ADM consults: key, seqno and the
durability requirements (level, optional timeout in milliseconds). -/
structure QueuedItem where
  key : String
  bySeqno : Int
  level : Level
  timeout : Option Int
  deriving DecidableEq

/-- `SyncWrite::Ack`: per-node memory/disk ack flags. -/
structure SwAck where
  memory : Bool
  disk : Bool
  deriving DecidableEq

/-- `ActiveDurabilityMonitor::SyncWrite`. -/
structure SyncWrite where
  cookie : Nat
  item : QueuedItem
  acks : List (String × SwAck)
  ackMemory : Nat
  ackDisk : Nat
  majority : Nat
  expiryTime : Option Int
  active : String
  deriving DecidableEq

def SyncWrite.getBySeqno (sw : SyncWrite) : Int :=
  sw.item.bySeqno

/-- `ActiveDurabilityMonitor::Position`.  `it` is the tracked iterator:
`none` models `Container::end`, `some i` an iterator at the element currently
at index `i` of the tracked list. -/
structure Position where
  it : Option Nat
  lastWriteSeqno : Int
  lastAckSeqno : Int
  deriving DecidableEq

/-- `ActiveDurabilityMonitor::NodePosition`. -/
structure NodePosition where
  memory : Position
  disk : Position
  deriving DecidableEq

/-- `ActiveDurabilityMonitor::ReplicationChain`.  `positions` holds one entry
per defined node; `majority` is `nodes.size() / 2 + 1` over all slots of the
chain (defined or not); `active` is the first node. -/
structure ReplicationChain where
  positions : List (String × NodePosition)
  majority : Nat
  active : String
  deriving DecidableEq

/-- `ActiveDurabilityMonitor::State`. -/
structure AdmState where
  trackedWrites : List SyncWrite
  firstChain : Option ReplicationChain
  lastTrackedSeqno : Int
  deriving DecidableEq

def getPos (np : NodePosition) : Tracking → Position
  | .Memory => np.memory
  | .Disk => np.disk

def setPos (np : NodePosition) : Tracking → Position → NodePosition
  | .Memory, p => { np with memory := p }
  | .Disk, p => { np with disk := p }

/-- `SyncWrite::ack(node, tracking)`: flag must not already be set; the
corresponding ack counter is incremented. -/
def SyncWrite.ack (sw : SyncWrite) (node : String) (tracking : Tracking) :
    Except DmErr SyncWrite :=
  match assocFind sw.acks node, tracking with
  | none, _ => .error (.logicError ("SyncWrite::ack: Node not valid: " ++ node))
  | some a, .Memory =>
    if a.memory then
      .error (.logicError ("SyncWrite::ack: ACK duplicate for node: " ++ node))
    else
      .ok { sw with
        acks := assocUpdate sw.acks node (fun a => { a with memory := true }),
        ackMemory := sw.ackMemory + 1 }
  | some a, .Disk =>
    if a.disk then
      .error (.logicError ("SyncWrite::ack: ACK duplicate for node: " ++ node))
    else
      .ok { sw with
        acks := assocUpdate sw.acks node (fun a => { a with disk := true }),
        ackDisk := sw.ackDisk + 1 }

/-- `SyncWrite::isSatisfied`. -/
def SyncWrite.isSatisfied (sw : SyncWrite) : Except DmErr Bool :=
  match sw.item.level with
  | .Majority => .ok (decide (sw.ackMemory ≥ sw.majority))
  | .MajorityAndPersistOnMaster =>
    (match assocFind sw.acks sw.active with
     | none => .error (.outOfRange "acks.at(active)")
     | some a => .ok (decide (sw.ackMemory ≥ sw.majority) && a.disk))
  | .None => .error (.logicError "SyncWrite::isVerified: Level::None")
  | .PersistToMajority => .ok (decide (sw.ackDisk ≥ sw.majority))

/-- `SyncWrite::isExpired(asOf)`: false when no expiry time is set, else
`expiryTime < asOf`. -/
def SyncWrite.isExpired (sw : SyncWrite) (asOf : Int) : Bool :=
  match sw.expiryTime with
  | none => false
  | some t => decide (t < asOf)

/-- The `SyncWrite` constructor: requires (gsl `Expects`) that the chain can
satisfy the majority; initialises one ack slot per defined chain node; the
expiry time is `now + timeout` when the item carries a timeout. -/
def mkSyncWrite (cookie : Nat) (item : QueuedItem) (chain : ReplicationChain)
    (now : Int) : Except DmErr SyncWrite :=
  if chain.positions.length < chain.majority then
    .error (.logicError "SyncWrite: Expects chain.size() >= majority")
  else
    .ok { cookie := cookie, item := item,
          acks := chain.positions.map (fun p => (p.1, ⟨false, false⟩)),
          ackMemory := 0, ackDisk := 0,
          majority := chain.majority,
          expiryTime := item.timeout.map (fun t => now + t),
          active := chain.active }

/-- The node-registration loop of the `ReplicationChain` constructor:
undefined nodes (empty name) get no position; duplicates are rejected. -/
def buildPositions (initIt : Option Nat) :
    List String → List (String × NodePosition) →
    Except DmErr (List (String × NodePosition))
  | [], acc => .ok acc
  | n :: rest, acc =>
    if n = "" then buildPositions initIt rest acc
    else if (assocFind acc n).isSome then
      .error (.invalidArgument
        ("ReplicationChain::ReplicationChain: Duplicate node: " ++ n))
    else
      buildPositions initIt rest
        (acc ++ [(n, ⟨⟨initIt, 0, 0⟩, ⟨initIt, 0, 0⟩⟩)])

/-- The `ReplicationChain` constructor.  `initIt` is the iterator every
position starts from (`trackedWrites.begin()` at the call site). -/
def mkReplicationChain (nodes : List String) (initIt : Option Nat) :
    Except DmErr ReplicationChain :=
  match nodes with
  | [] => .error (.outOfRange "nodes.at(0)")
  | n0 :: _ =>
    if n0 = "" then
      .error (.invalidArgument
        "ReplicationChain::ReplicationChain: Active node cannot be undefined")
    else do
      let positions ← buildPositions initIt nodes []
      .ok { positions := positions, majority := nodes.length / 2 + 1, active := n0 }

/-- The index of the element one step after an iterator: `begin` (index 0)
when the iterator is at `end`, else the following element — the source's
`next = (cursor == end ? begin : ++cursor)` in index form. -/
def advIdx : Option Nat → Nat
  | none => 0
  | some i => i + 1

namespace AdmState

/-- `State::setReplicationTopology`: take the first chain, mapping JSON
`null` (here `none`) slots to the undefined node name, and install a fresh
`ReplicationChain` whose positions start at `trackedWrites.begin()`. -/
def setReplicationTopology (st : AdmState) (topology : List (List (Option String))) :
    Except DmErr AdmState :=
  match topology with
  | [] => .error (.outOfRange "topology.at(0)")
  | chain0 :: _ => do
    let fChain := chain0.map (fun n => match n with | some s => s | none => "")
    let ch ← mkReplicationChain fChain
      (if st.trackedWrites.isEmpty then none else some 0)
    .ok { st with firstChain := some ch }

/-- `State::addSyncWrite`: append the new `SyncWrite` and record the last
tracked seqno (the `Monotonic` wrapper is modelled as plain assignment). -/
def addSyncWrite (st : AdmState) (cookie : Nat) (item : QueuedItem) (now : Int) :
    Except DmErr AdmState :=
  match st.firstChain with
  | none => .error (.logicError "State::addSyncWrite: FirstChain not set")
  | some ch => do
    let sw ← mkSyncWrite cookie item ch now
    .ok { st with trackedWrites := st.trackedWrites ++ [sw],
                  lastTrackedSeqno := item.bySeqno }

/-- `State::getNodeNext`: the element after the node's cursor (`begin` when
the cursor is at `end`); `none` when that successor is `end` (for a cursor
at `end` and an empty container, `begin` is itself `end`). -/
def getNodeNext (st : AdmState) (node : String) (tracking : Tracking) :
    Except DmErr (Option (Nat × SyncWrite)) :=
  match st.firstChain with
  | none => .error (.logicError "getNodeNext: FirstChain not set")
  | some ch =>
    match assocFind ch.positions node with
    | none => .error (.outOfRange "positions.at(node)")
    | some np =>
      .ok (match st.trackedWrites[advIdx (getPos np tracking).it]? with
           | none => none
           | some sw => some (advIdx (getPos np tracking).it, sw))

/-- `State::advanceNodePosition`: move the cursor one step forward (from
`end` to `begin`), require (`Expects`) it lands on an element, update
`lastWriteSeqno` to that element's seqno and record the ack on it. -/
def advanceNodePosition (st : AdmState) (node : String) (tracking : Tracking) :
    Except DmErr AdmState :=
  match st.firstChain with
  | none => .error (.logicError "advanceNodePosition: FirstChain not set")
  | some ch =>
    match assocFind ch.positions node with
    | none => .error (.outOfRange "positions.at(node)")
    | some np =>
      match st.trackedWrites[advIdx (getPos np tracking).it]? with
      | none => .error (.logicError "advanceNodePosition: Expects pos.it != end")
      | some sw => do
        let sw' ← sw.ack node tracking
        .ok { st with
          trackedWrites :=
            st.trackedWrites.set (advIdx (getPos np tracking).it) sw',
          firstChain := some
            { ch with positions := assocUpdate ch.positions node
                          (fun np2 => setPos np2 tracking
                            { it := some (advIdx (getPos np tracking).it),
                              lastWriteSeqno := sw.getBySeqno,
                              lastAckSeqno := (getPos np tracking).lastAckSeqno }) } }

/-- `State::updateNodeAck`: record the last acked seqno for the node (the
`WeaklyMonotonic` wrapper is modelled as plain assignment). -/
def updateNodeAck (st : AdmState) (node : String) (tracking : Tracking)
    (seqno : Int) : Except DmErr AdmState :=
  match st.firstChain with
  | none => .error (.logicError "updateNodeAck: FirstChain not set")
  | some ch =>
    match assocFind ch.positions node with
    | none => .error (.outOfRange "positions.at(node)")
    | some _ =>
      let ps := assocUpdate ch.positions node (fun np =>
        let pos := getPos np tracking
        setPos np tracking { pos with lastAckSeqno := seqno })
      let ch' := { ch with positions := ps }
      .ok { st with firstChain := some ch' }

/-- Iterator repositioning performed by `State::removeSyncWrite` on the
removal of the element at index `removed`, translated to the index
representation: an iterator at the victim moves to its predecessor (`end`
when the victim is the head); an iterator at a later element keeps pointing
at the same element, whose index drops by one; earlier iterators and `end`
are untouched. -/
def repositionIt (removed : Nat) : Option Nat → Option Nat
  | none => none
  | some j =>
    if j = removed then (if removed = 0 then none else some (removed - 1))
    else if removed < j then some (j - 1)
    else some j

def repositionPos (removed : Nat) (p : Position) : Position :=
  { p with it := repositionIt removed p.it }

/-- `State::removeSyncWrite`: reposition every chain cursor, then splice the
element out of `trackedWrites`, returning it. -/
def removeSyncWrite (st : AdmState) (i : Nat) :
    Except DmErr (AdmState × SyncWrite) :=
  match st.trackedWrites[i]? with
  | none => .error (.logicError "ActiveDurabilityMonitor::commit: Position points to end")
  | some sw =>
    let ch' := st.firstChain.map (fun ch =>
      { ch with positions := ch.positions.map (fun p =>
          (p.1, { memory := repositionPos i p.2.memory,
                  disk := repositionPos i p.2.disk })) })
    .ok ({ st with trackedWrites := st.trackedWrites.eraseIdx i,
                   firstChain := ch' }, sw)

end AdmState

/-- The while-loop of `State::processSeqnoAck`: while the node's next element
exists and its seqno is within the acked seqno, advance (recording the ack)
and, when the pointed SyncWrite is satisfied, splice it onto `toCommit`.
`fuel` bounds the iteration count; callers pass the tracked-list length,
which always suffices (each iteration moves the cursor's successor index
forward by one, net of removals). -/
def processLoop (node : String) (tracking : Tracking) (ackSeqno : Int) :
    Nat → AdmState → List SyncWrite → Except DmErr (AdmState × List SyncWrite)
  | 0, st, toCommit => .ok (st, toCommit)
  | fuel + 1, st, toCommit => do
    let next ← st.getNodeNext node tracking
    match next with
    | none => .ok (st, toCommit)
    | some (_, nextSw) =>
      if nextSw.getBySeqno ≤ ackSeqno then do
        let st1 ← st.advanceNodePosition node tracking
        match st1.firstChain with
        | none => .error (.logicError "processSeqnoAck: FirstChain not set")
        | some ch =>
          match assocFind ch.positions node with
          | none => .error (.outOfRange "positions.at(node)")
          | some np =>
            match (getPos np tracking).it with
            | none => .error (.logicError "processSeqnoAck: invalid iterator")
            | some k =>
              match st1.trackedWrites[k]? with
              | none => .error (.logicError "processSeqnoAck: invalid iterator")
              | some cur => do
                let sat ← cur.isSatisfied
                if sat then do
                  let r ← st1.removeSyncWrite k
                  processLoop node tracking ackSeqno fuel r.1 (toCommit ++ [r.2])
                else
                  processLoop node tracking ackSeqno fuel st1 toCommit
      else .ok (st, toCommit)

/-- `State::processSeqnoAck(node, tracking, ackSeqno, toCommit)`. -/
def AdmState.processSeqnoAck (st : AdmState) (node : String) (tracking : Tracking)
    (ackSeqno : Int) (toCommit : List SyncWrite) :
    Except DmErr (AdmState × List SyncWrite) :=
  match st.firstChain with
  | none =>
    .error (.logicError "ActiveDurabilityMonitor::processSeqnoAck: FirstChain not set")
  | some _ => do
    let r ← processLoop node tracking ackSeqno st.trackedWrites.length st toCommit
    let st' ← r.1.updateNodeAck node tracking ackSeqno
    .ok (st', r.2)

/-- The loop of `State::removeExpired`: scan the tracked list, splicing out
every expired SyncWrite (cursors repositioned by `removeSyncWrite`); after a
removal the scan continues at the same index, which now holds the old
successor. -/
def removeExpiredLoop (asOf : Int) :
    Nat → Nat → AdmState → List SyncWrite → Except DmErr (AdmState × List SyncWrite)
  | 0, _, st, expired => .ok (st, expired)
  | fuel + 1, k, st, expired =>
    match st.trackedWrites[k]? with
    | none => .ok (st, expired)
    | some sw =>
      if sw.isExpired asOf then do
        let r ← st.removeSyncWrite k
        removeExpiredLoop asOf fuel k r.1 (expired ++ [r.2])
      else removeExpiredLoop asOf fuel (k + 1) st expired

/-- `State::removeExpired(asOf, expired)`. -/
def AdmState.removeExpired (st : AdmState) (asOf : Int) :
    Except DmErr (AdmState × List SyncWrite) :=
  removeExpiredLoop asOf st.trackedWrites.length 0 st []

/-- Monitor-level operations of `ActiveDurabilityMonitor` (abbreviated ADM).
The vBucket collaborator is modelled by passing the values the monitor reads
from it (`vb.getState()`, `vb.getPersistenceSeqno()`) as arguments; the
commit/abort callbacks are modelled by returning the `toCommit`/`toAbort`
list, whose elements the monitor passes to `vb.commit`/`vb.abort` in list
order after releasing the state lock. -/
def ADM.maxReplicas : Nat := 3

/-- `ActiveDurabilityMonitor::isDurabilityPossible`. -/
def ADM.isDurabilityPossible (st : AdmState) : Bool :=
  match st.firstChain with
  | none => false
  | some ch => decide (ch.positions.length ≥ ch.majority)

/-- `ActiveDurabilityMonitor::setReplicationTopology`: rejected on a replica
vBucket, on an empty topology, on an empty first chain, on a chain larger
than `1 + maxReplicas`, and when the first (active) node is not a string. -/
def ADM.setReplicationTopology (vbState : VBState) (st : AdmState)
    (topology : List (List (Option String))) : Except DmErr AdmState :=
  if vbState = .replica then
    .error (.invalidArgument
      "ActiveDurabilityMonitor::setReplicationTopology: Not supported at Replica")
  else
    match topology with
    | [] =>
      .error (.invalidArgument
        "ActiveDurabilityMonitor::setReplicationTopology: Topology is empty")
    | chain0 :: _ =>
      if chain0.length = 0 then
        .error (.invalidArgument
          "ActiveDurabilityMonitor::setReplicationTopology: FirstChain cannot be empty")
      else if chain0.length > 1 + ADM.maxReplicas then
        .error (.invalidArgument
          "ActiveDurabilityMonitor::setReplicationTopology: Too many nodes in chain")
      else
        match chain0 with
        | [] => .error (.invalidArgument "unreachable")
        | n0 :: _ =>
          match n0 with
          | none =>
            .error (.invalidArgument
              "ActiveDurabilityMonitor::setReplicationTopology: first node in chain (active) cannot be undefined")
          | some _ => st.setReplicationTopology topology

/-- `ActiveDurabilityMonitor::addSyncWrite(cookie, item)`.  `vbState` is the
vBucket's current state; note that this operation never consults it (only
`setReplicationTopology` and `processTimeout` do).  After tracking the new
write, the active node's memory cursor is advanced over it and the active's
memory ack seqno is set to the new seqno. -/
def ADM.addSyncWrite (vbState : VBState) (st : AdmState) (cookie : Nat)
    (item : QueuedItem) (now : Int) : Except DmErr AdmState :=
  if item.level = .None then
    .error (.invalidArgument "ActiveDurabilityMonitor::addSyncWrite: Level::None")
  else if ADM.isDurabilityPossible st = false then
    .error (.logicError "ActiveDurabilityMonitor::addSyncWrite: Impossible")
  else
    match st.firstChain with
    | none => .error (.logicError "getActive: FirstChain not set")
    | some ch => do
      let st1 ← st.addSyncWrite cookie item now
      let st2 ← st1.advanceNodePosition ch.active .Memory
      let st3 ← st2.updateNodeAck ch.active .Memory item.bySeqno
      .ok st3

/-- `ActiveDurabilityMonitor::seqnoAckReceived(replica, preparedSeqno)`:
process the ack on the memory tracking, then on the disk tracking, threading
one `toCommit` container through both; its elements are then committed in
list order. -/
def ADM.seqnoAckReceived (st : AdmState) (replica : String) (preparedSeqno : Int) :
    Except DmErr (AdmState × List SyncWrite) := do
  let r1 ← st.processSeqnoAck replica .Memory preparedSeqno []
  let r2 ← r1.1.processSeqnoAck replica .Disk preparedSeqno r1.2
  .ok r2

/-- `ActiveDurabilityMonitor::notifyLocalPersistence()`: a disk ack for the
active node at the vBucket's persistence seqno. -/
def ADM.notifyLocalPersistence (st : AdmState) (persistenceSeqno : Int) :
    Except DmErr (AdmState × List SyncWrite) :=
  match st.firstChain with
  | none => .error (.logicError "getActive: FirstChain not set")
  | some ch => st.processSeqnoAck ch.active .Disk persistenceSeqno []

/-- `ActiveDurabilityMonitor::processTimeout(asOf)`: only legal on an active
vBucket; removes every expired SyncWrite, which the monitor then aborts in
list order. -/
def ADM.processTimeout (vbState : VBState) (st : AdmState) (asOf : Int) :
    Except DmErr (AdmState × List SyncWrite) :=
  if vbState ≠ .active then
    .error (.logicError "ActiveDurabilityMonitor::processTimeout: state is not active")
  else st.removeExpired asOf

/-- Seqnos of a list of SyncWrites (used to state the scenario results). -/
def seqnosOf (l : List SyncWrite) : List Int :=
  l.map SyncWrite.getBySeqno

/-! Derived observations on the embedded states, used to phrase invariants. -/

/-- The weakened failover-table invariant: nonempty, nonzero UUIDs, seqnos
weakly decreasing from front to back, size within the configured capacity. -/
def tableInvariant (st : FailoverTable) : Prop :=
  st.table ≠ [] ∧ (∀ e ∈ st.table, e.vb_uuid ≠ 0) ∧
    List.Pairwise (fun a b => b.by_seqno ≤ a.by_seqno) st.table ∧
    st.table.length ≤ st.max_entries

/-- The node's `NodePosition` in the first chain, if any. -/
def nodePos (st : AdmState) (n : String) : Option NodePosition :=
  match st.firstChain with
  | none => none
  | some ch => assocFind ch.positions n

/-- The node's tracked iterator, if the node is positioned in the chain. -/
def nodeIt (st : AdmState) (n : String) (t : Tracking) : Option (Option Nat) :=
  (nodePos st n).map (fun np => (getPos np t).it)

/-- The node's last acked seqno, if the node is positioned in the chain. -/
def lastAckOf (st : AdmState) (n : String) (t : Tracking) : Option Int :=
  (nodePos st n).map (fun np => (getPos np t).lastAckSeqno)

/-- Index of the element after the node's cursor (`0` for a cursor at `end`,
matching `next = (cursor == end ? begin : ++cursor)`). -/
def cursorSucc (st : AdmState) (n : String) (t : Tracking) : Nat :=
  match nodeIt st n t with
  | some (some i) => i + 1
  | _ => 0

/-- Number of tracked elements the node's cursor has not yet passed: the
strictly decreasing measure of the `processSeqnoAck` loop. -/
def admMeasure (st : AdmState) (n : String) (t : Tracking) : Nat :=
  st.trackedWrites.length - cursorSucc st n t

/-- The node is registered in the installed chain. -/
def nodeReady (st : AdmState) (n : String) : Prop :=
  (nodePos st n).isSome = true

/-- The `processSeqnoAck` loop guard is false for `(n, t)` at ack seqno `s`:
the node's next element does not exist or lies beyond `s`. -/
def noPending (st : AdmState) (n : String) (t : Tracking) (s : Int) : Prop :=
  ∃ r, st.getNodeNext n t = .ok r ∧
    (r = none ∨ ∃ j sw, r = some (j, sw) ∧ s < sw.getBySeqno)

/-- The active node's memory cursor sits on the last tracked element (or at
`end` when nothing is tracked) — the configuration `addSyncWrite` maintains. -/
def activeCursorOk (st : AdmState) : Prop :=
  ∀ ch, st.firstChain = some ch →
    ∃ np, assocFind ch.positions ch.active = some np ∧
      np.memory.it = (if st.trackedWrites.length = 0 then none
                      else some (st.trackedWrites.length - 1))

/-! Concrete scenario states. -/

/-- The topology `[["a","r1","r2"]]` (majority 2). -/
def topo : List (List (Option String)) := [[some "a", some "r1", some "r2"]]

/-- A freshly constructed monitor state: nothing tracked, no chain. -/
def adm0 : AdmState :=
  { trackedWrites := [], firstChain := none, lastTrackedSeqno := 0 }

/-- A prepare item at the given key/seqno/level, with no timeout. -/
def prep (lv : Level) (k : String) (s : Int) : QueuedItem :=
  { key := k, bySeqno := s, level := lv, timeout := none }

/-- The monitor state after installing `topo` on an active vBucket. -/
def admTopo : AdmState :=
  match ADM.setReplicationTopology .active adm0 topo with
  | .ok s => s
  | .error _ => adm0

/-- Scenario of claim C1: three Majority prepares (seqnos 10, 11, 12), then
`seqnoAckReceived("r1", 11)`. -/
def c1run : Except DmErr (AdmState × List SyncWrite) := do
  let s2 ← ADM.addSyncWrite .active admTopo 1 (prep .Majority "k10" 10) 0
  let s3 ← ADM.addSyncWrite .active s2 2 (prep .Majority "k11" 11) 0
  let s4 ← ADM.addSyncWrite .active s3 3 (prep .Majority "k12" 12) 0
  ADM.seqnoAckReceived s4 "r1" 11

/-- Mixed-level scenario: a PersistToMajority prepare at seqno 10, a Majority
prepare at seqno 11, then `seqnoAckReceived("r1", 11)`. -/
def c2run : Except DmErr (AdmState × List SyncWrite) := do
  let s2 ← ADM.addSyncWrite .active admTopo 1 (prep .PersistToMajority "k10" 10) 0
  let s3 ← ADM.addSyncWrite .active s2 2 (prep .Majority "k11" 11) 0
  ADM.seqnoAckReceived s3 "r1" 11

/-- The monitor state holding the three Majority prepares of `c1run`. -/
def c7pre : AdmState :=
  match (do
    let s2 ← ADM.addSyncWrite .active admTopo 1 (prep .Majority "k10" 10) 0
    let s3 ← ADM.addSyncWrite .active s2 2 (prep .Majority "k11" 11) 0
    ADM.addSyncWrite .active s3 3 (prep .Majority "k12" 12) 0 : Except DmErr AdmState) with
  | .ok s => s
  | .error _ => adm0

/-- The state after the first `seqnoAckReceived("r1", 11)` on `c7pre`. -/
def c7post : AdmState :=
  match ADM.seqnoAckReceived c7pre "r1" 11 with
  | .ok r => r.1
  | .error _ => adm0

/-- The commit list of the first `seqnoAckReceived("r1", 11)` on `c7pre`. -/
def c7commits : List SyncWrite :=
  match ADM.seqnoAckReceived c7pre "r1" 11 with
  | .ok r => r.2
  | .error _ => []

/-- Failover table of claim C3: front-to-back `[(uuid 7, seqno 200),
(uuid 3, seqno 100)]`. -/
def ft3 : FailoverTable :=
  { table := [⟨7, 200⟩, ⟨3, 100⟩], max_entries := 5, latest_uuid := 7,
    cachedTableJSON := dumpTable [⟨7, 200⟩, ⟨3, 100⟩], erroneousEntriesErased := 0 }

/-- A 32-byte wire buffer of two records: `(uuid 5, seqno 50)` then
`(uuid 9, seqno 90)` (8-byte big-endian fields). -/
def buf32 : List Nat :=
  (List.replicate 7 0) ++ [5] ++ (List.replicate 7 0) ++ [50] ++
    (List.replicate 7 0) ++ [9] ++ (List.replicate 7 0) ++ [90]

/-- A freshly created failover table (capacity 5, generated UUID 42). -/
def ft42 : FailoverTable := FailoverTable.create 42 5

/-- Scenario-6 manifests: the current manifest has scope 0x8 named "s1"; the
candidate renames it to "s2" under a greater uid. -/
def mScenario : Collections.Manifest :=
  { defaultCollectionExists := true,
    scopes := [(0, ⟨"_default", [⟨0, none⟩]⟩), (8, ⟨"s1", []⟩)],
    collections := [(0, ⟨0, "_default"⟩)], uid := 1 }

/-- The candidate manifest of scenario 6 (scope 0x8 renamed to "s2"). -/
def sScenario : Collections.Manifest :=
  { defaultCollectionExists := true,
    scopes := [(0, ⟨"_default", [⟨0, none⟩]⟩), (8, ⟨"s2", []⟩)],
    collections := [(0, ⟨0, "_default"⟩)], uid := 2 }

/-- A tracked SyncWrite without timeout (expiry never set), acked in memory
by the active "a" of a one-node chain. -/
def swNoTimeout : SyncWrite :=
  { cookie := 1, item := prep .Majority "k" 5, acks := [("a", ⟨true, false⟩)],
    ackMemory := 1, ackDisk := 0, majority := 1, expiryTime := none,
    active := "a" }

/-- A monitor state tracking only `swNoTimeout` on the one-node chain. -/
def stNoTimeout : AdmState :=
  { trackedWrites := [swNoTimeout],
    firstChain := some { positions := [("a", ⟨⟨some 0, 5, 5⟩, ⟨none, 0, 0⟩⟩)],
                         majority := 1, active := "a" },
    lastTrackedSeqno := 5 }

/-- Concrete single-pass `processSeqnoAck` run used to instantiate the C2
per-pass ordering theorem: the three-prepare state `c7pre`, node `r1`,
Memory tracking, ack seqno 11, empty initial to-commit list. -/
def c2wRun : Except DmErr (AdmState × List SyncWrite) :=
  AdmState.processSeqnoAck c7pre "r1" Tracking.Memory 11 []

/-- Resulting monitor state of `c2wRun`. -/
def c2wSt : AdmState :=
  match c2wRun with
  | .ok p => p.1
  | .error _ => adm0

/-- Commit list of `c2wRun`. -/
def c2wCs : List SyncWrite :=
  match c2wRun with
  | .ok p => p.2
  | .error _ => []

/-! ## Claim theorems -/

/-- C1: with topology `[["a","r1","r2"]]` (majority 2) and tracked Majority
prepares at seqnos 10, 11, 12 with no prior replica acks,
`seqnoAckReceived("r1", 11)` commits exactly seqnos 10 and 11, invoking
`vb.commit` for 10 before 11 (the commit list is `[10, 11]`, processed in
order), and leaves seqno 12 as the only tracked SyncWrite. -/
theorem c1_majority_commit :
    c1run.map (fun r => (seqnosOf r.1.trackedWrites, seqnosOf r.2)) =
      .ok ([12], [10, 11]) := by
  rfl

/-- C2 counterexample: with a PersistToMajority prepare at seqno 10 and a
Majority prepare at seqno 11 tracked (topology `[["a","r1","r2"]]`),
`seqnoAckReceived("r1", 11)` invokes `vb.commit` for seqno 11 while the
SyncWrite at the lower seqno 10 is still tracked — refuting the claim that
the ADM never commits a higher seqno before a still-tracked lower one. -/
theorem c2_commit_reorder_cex :
    c2run.map (fun r => (seqnosOf r.1.trackedWrites, seqnosOf r.2)) =
      .ok ([10], [11]) := by
  rfl

/-- C3 counterexample: on the table `[(uuid 7, seqno 200), (uuid 3, seqno
100)]` the call `needsRollback(start 150, cur 200, vbUuid 3, snapStart 130,
snapEnd 180, purge 0, strict, no collection seqno)` returns NO rollback —
not a rollback to seqno 100 as claimed. -/
theorem c3_snap_rollback_cex :
    (ft3.needsRollback 150 200 3 130 180 0 true none).1.1 = false := by
  rfl

/-- C3 (amended): branch 3 is found and `upper` becomes the `by_seqno` of the
strictly newer entry, i.e. 200 (not 100); since `snapEnd(180) ≤ upper(200)`
the call reports no rollback, leaving the written rollback seqno at 0. -/
theorem c3_no_rollback :
    FailoverTable.branchUpperRev 200 3 ft3.table.reverse = some 200 ∧
      ft3.needsRollback 150 200 3 130 180 0 true none = ((false, ""), some 0) := by
  exact ⟨rfl, rfl⟩

/-- C4 counterexample: replacing the log from the 32-byte buffer holding the
records `(uuid 5, seqno 50)` then `(uuid 9, seqno 90)` makes the FIRST
record the front of the table, not the last record as claimed. -/
theorem c4_head_last_record_cex :
    (FailoverTable.replaceFailoverLog buf32 ft42).map
        (fun st => st.table) = .ok [⟨5, 50⟩, ⟨9, 90⟩] := by
  rfl

/-- C5 counterexample: `removeLatestEntry` on a freshly created (single
entry) table leaves the table empty, violating the claimed nonemptiness
after every public operation. -/
theorem c5_nonempty_cex :
    (FailoverTable.removeLatestEntry ft42).table = [] := by
  rfl

/-- C9 counterexample: loading the string "[]" (which parses to an empty
JSON array and then fails validation) reports a load failure yet mutates the
table's cached JSON to the input string. -/
theorem c9_cached_json_cex :
    FailoverTable.loadFromJSONString ft42 "[]" (some (Json.arr [])) =
        (false, { ft42 with cachedTableJSON := "[]" }) ∧
      ft42.cachedTableJSON ≠ "[]" := by
  exact ⟨rfl, by decide⟩

namespace Collections

theorem scopeViolation_eq_none_iff (m s : Manifest) :
    scopeViolation m s = none ↔
      ∀ p ∈ m.scopes, ∀ sc, assocFind s.scopes p.1 = some sc → p.2.name = sc.name := by
  unfold scopeViolation
  rw [List.findSome?_eq_none_iff]
  constructor
  · intro h p hp sc hsc
    have := h p hp
    rw [hsc] at this
    by_contra hne
    simp [hne] at this
  · intro h p hp
    cases hsc : assocFind s.scopes p.1 with
    | none => rfl
    | some sc => simp [h p hp sc hsc]

theorem collectionViolation_eq_none_iff (m s : Manifest) :
    collectionViolation m s = none ↔
      ∀ p ∈ m.collections, ∀ c, assocFind s.collections p.1 = some c → p.2 = c := by
  unfold collectionViolation
  rw [List.findSome?_eq_none_iff]
  constructor
  · intro h p hp c hc
    have := h p hp
    rw [hc] at this
    by_contra hne
    simp [hne] at this
  · intro h p hp
    cases hc : assocFind s.collections p.1 with
    | none => rfl
    | some c => simp [h p hp c hc]

theorem c6_isSuccessor_iff (m s : Manifest) :
    ((m.isSuccessor s).code = .success ↔
      ((m.uid < s.uid ∧
        (∀ p ∈ m.scopes, ∀ sc, assocFind s.scopes p.1 = some sc → p.2.name = sc.name) ∧
        (∀ p ∈ m.collections, ∀ c, assocFind s.collections p.1 = some c → p.2 = c)) ∨
       (s.uid = m.uid ∧ Manifest.eqB m s = true))) ∧
    ((m.isSuccessor s).code ≠ .success →
      (m.isSuccessor s).code = .cannot_apply_collections_manifest) := by
  constructor
  · by_cases h1 : m.uid < s.uid
    · rw [Manifest.isSuccessor]
      simp only [if_pos h1]
      cases hsv : scopeViolation m s with
      | some v =>
        simp only []
        constructor
        · intro h; cases h
        · rintro (⟨_, hs, _⟩ | ⟨heq, _⟩)
          · rw [(scopeViolation_eq_none_iff m s).mpr hs] at hsv; cases hsv
          · omega
      | none =>
        cases hcv : collectionViolation m s with
        | some v =>
          simp only []
          constructor
          · intro h; cases h
          · rintro (⟨_, _, hc⟩ | ⟨heq, _⟩)
            · rw [(collectionViolation_eq_none_iff m s).mpr hc] at hcv; cases hcv
            · omega
        | none =>
          simp only []
          constructor
          · intro _
            exact Or.inl ⟨h1, (scopeViolation_eq_none_iff m s).mp hsv,
              (collectionViolation_eq_none_iff m s).mp hcv⟩
          · intro _; trivial
    · by_cases h2 : m.uid = s.uid
      · rw [Manifest.isSuccessor]
        simp only [if_neg h1, if_pos h2]
        by_cases h3 : Manifest.eqB m s = true
        · simp [h3, h2.symm]
        · simp only [if_neg h3]
          constructor
          · intro h; cases h
          · rintro (⟨hl, _⟩ | ⟨_, he⟩)
            · omega
            · exact absurd he h3
      · rw [Manifest.isSuccessor]
        simp only [if_neg h1, if_neg h2]
        constructor
        · intro h; cases h
        · rintro (⟨hl, _⟩ | ⟨he, _⟩)
          · omega
          · omega
  · intro h
    cases hc : (m.isSuccessor s).code with
    | success => exact absurd hc h
    | cannot_apply_collections_manifest => rfl

end Collections

/-- C6 witness: at the concrete pair `mScenario`/`sScenario` (a surviving
scope renamed under a greater uid), the validation is not a success, so by
the theorem it returns `cannot_apply_collections_manifest`. -/
theorem c6_isSuccessor_iff_witness :
    (mScenario.isSuccessor sScenario).code =
      Collections.EngineErrc.cannot_apply_collections_manifest := by
  exact (Collections.c6_isSuccessor_iff mScenario sScenario).2 (by decide)
theorem removeSyncWrite_ok {st st2 : AdmState} {i : Nat} {swR : SyncWrite}
    (h : st.removeSyncWrite i = .ok (st2, swR)) :
    st2.trackedWrites = st.trackedWrites.eraseIdx i ∧
      st.trackedWrites[i]? = some swR := by
  unfold AdmState.removeSyncWrite at h
  cases hg : st.trackedWrites[i]? with
  | none => rw [hg] at h; cases h
  | some sw =>
    rw [hg] at h
    cases h
    exact ⟨rfl, rfl⟩

theorem mem_eraseIdx_of_mem_of_ne {α : Type} {l : List α} {x v : α} {i : Nat}
    (hx : x ∈ l) (hv : l[i]? = some v) (hne : x ≠ v) : x ∈ l.eraseIdx i := by
  obtain ⟨m, hm, hget⟩ := List.mem_iff_getElem.mp hx
  have hil : i < l.length := by
    by_contra hge
    rw [List.getElem?_eq_none (by omega)] at hv
    cases hv
  rw [List.mem_eraseIdx_iff_getElem]
  refine ⟨m, hm, ?_, hget⟩
  intro hmi
  apply hne
  subst hmi
  rw [List.getElem?_eq_getElem hm] at hv
  rw [← hget]
  exact Option.some.inj hv

theorem removeExpiredLoop_mem {asOf : Int} {sw : SyncWrite}
    (hexp : sw.isExpired asOf = false) :
    ∀ (fuel k : Nat) (st : AdmState) (expired : List SyncWrite)
      (st' : AdmState) (out : List SyncWrite),
      removeExpiredLoop asOf fuel k st expired = .ok (st', out) →
      sw ∈ st.trackedWrites → sw ∉ expired →
      sw ∈ st'.trackedWrites ∧ sw ∉ out := by
  intro fuel
  induction fuel with
  | zero =>
    intro k st expired st' out hrun hmem hnin
    cases hrun
    exact ⟨hmem, hnin⟩
  | succ n ih =>
    intro k st expired st' out hrun hmem hnin
    rw [removeExpiredLoop] at hrun
    split at hrun
    · cases hrun
      exact ⟨hmem, hnin⟩
    · rename_i sw2 hg
      split at hrun
      · rename_i he
        cases hrm : st.removeSyncWrite k with
        | error e => rw [hrm] at hrun; cases hrun
        | ok r =>
          rw [hrm] at hrun
          replace hrun : removeExpiredLoop asOf n k r.1 (expired ++ [r.2]) =
              Except.ok (st', out) := hrun
          obtain ⟨htr, hget⟩ := removeSyncWrite_ok hrm
          have hswne : sw ≠ sw2 := by
            intro hEq
            rw [hEq] at hexp
            rw [hexp] at he
            cases he
          have hR : r.2 = sw2 := by
            have := hget.symm.trans hg
            exact Option.some.inj this
          have hmem2 : sw ∈ r.1.trackedWrites := by
            rw [htr]
            exact mem_eraseIdx_of_mem_of_ne hmem hg hswne
          have hnin2 : sw ∉ expired ++ [r.2] := by
            intro hin
            rcases List.mem_append.mp hin with h | h
            · exact hnin h
            · rw [hR] at h
              cases h with
              | head => exact hswne rfl
              | tail _ h2 => cases h2
          exact ih k r.1 (expired ++ [r.2]) st' out hrun hmem2 hnin2
      · exact ih (k + 1) st expired st' out hrun hmem hnin

/-- C10: a tracked SyncWrite whose durability requirements carry no timeout
has no expiry time, is never expired as of any time point, and is neither
removed from tracking nor added to the abort list by `processTimeout`. -/
theorem c10_no_timeout_never_aborted (st : AdmState) (asOf : Int)
    (sw : SyncWrite) (st' : AdmState) (aborts : List SyncWrite)
    (hnone : sw.expiryTime = none)
    (hmem : sw ∈ st.trackedWrites)
    (hrun : ADM.processTimeout .active st asOf = .ok (st', aborts)) :
    sw.isExpired asOf = false ∧ sw ∈ st'.trackedWrites ∧ sw ∉ aborts := by
  have hexp : sw.isExpired asOf = false := by
    unfold SyncWrite.isExpired
    rw [hnone]
  unfold ADM.processTimeout at hrun
  rw [if_neg (by decide)] at hrun
  unfold AdmState.removeExpired at hrun
  have h2 := removeExpiredLoop_mem hexp st.trackedWrites.length 0 st [] st' aborts
    hrun hmem (by intro h; cases h)
  exact ⟨hexp, h2⟩

/-- C10 witness: in the concrete state tracking only the timeout-free
`swNoTimeout`, `processTimeout` at time 1000 leaves it tracked and aborts
nothing. -/
theorem c10_no_timeout_never_aborted_witness :
    SyncWrite.isExpired swNoTimeout 1000 = false ∧
      swNoTimeout ∈ stNoTimeout.trackedWrites ∧ swNoTimeout ∉ ([] : List SyncWrite) :=
  c10_no_timeout_never_aborted stNoTimeout 1000 swNoTimeout stNoTimeout []
    rfl (by decide) rfl

namespace FailoverTable

theorem replaceLoop_eq (bytes : List Nat) :
    ∀ (k : Nat) (acc : List FailoverEntry),
      replaceLoop bytes k acc =
        (List.range k).map (fun i => decodeAt bytes (16 * i)) ++ acc := by
  intro k
  induction k with
  | zero => intro acc; simp [replaceLoop]
  | succ n ih =>
    intro acc
    rw [replaceLoop, ih, List.range_succ]
    simp

/-- C4 (amended): for a buffer whose length is a nonzero multiple of 16,
`replaceFailoverLog` installs one decoded entry per 16-byte record in buffer
order, so the final front (head) of the table is the FIRST record of the
buffer; for a length that is zero or not a multiple of 16 it raises an
invalid-argument error. -/
theorem c4_replaceFailoverLog_spec (bytes : List Nat) (st : FailoverTable) :
    (bytes.length % 16 = 0 ∧ bytes.length ≠ 0 →
      ∃ st', replaceFailoverLog bytes st = .ok st' ∧
        st'.table = (List.range (bytes.length / 16)).map
          (fun i => decodeAt bytes (16 * i)) ∧
        st'.table.head? = some (decodeAt bytes 0)) ∧
    (bytes.length % 16 ≠ 0 ∨ bytes.length = 0 →
      ∃ msg, replaceFailoverLog bytes st = .error (.invalidArgument msg)) := by
  constructor
  · rintro ⟨hmod, hne⟩
    have hk : bytes.length / 16 ≠ 0 := by
      intro h0
      have := Nat.div_add_mod bytes.length 16
      rw [h0, hmod] at this
      omega
    obtain ⟨j, hj⟩ := Nat.exists_eq_succ_of_ne_zero hk
    unfold replaceFailoverLog
    rw [if_neg (by push_neg; exact ⟨hmod, hne⟩)]
    rw [replaceLoop_eq bytes (bytes.length / 16) []]
    rw [hj, List.range_succ_eq_map]
    simp only [List.map_cons, List.append_nil]
    refine ⟨_, rfl, ?_, ?_⟩
    · simp [hj, List.range_succ_eq_map]
    · simp
  · intro h
    unfold replaceFailoverLog
    rw [if_pos h]
    exact ⟨_, rfl⟩

/-- Unfolding equation of the sanitize loop: no entry kept yet. -/
theorem sanitizeLoop_cons_none (e : FailoverEntry) (rest : List FailoverEntry) :
    sanitizeLoop none (e :: rest) =
      if e.vb_uuid = 0 then sanitizeLoop none rest
      else e :: sanitizeLoop (some e.by_seqno) rest := by
  conv_lhs => rw [sanitizeLoop.eq_def]

/-- Unfolding equation of the sanitize loop: last kept seqno is `p`. -/
theorem sanitizeLoop_cons_some (p : Nat) (e : FailoverEntry)
    (rest : List FailoverEntry) :
    sanitizeLoop (some p) (e :: rest) =
      if e.vb_uuid = 0 then sanitizeLoop (some p) rest
      else if e.by_seqno > p then sanitizeLoop (some p) rest
      else e :: sanitizeLoop (some e.by_seqno) rest := by
  conv_lhs => rw [sanitizeLoop.eq_def]

/-- Entries kept by the sanitize loop come from the input list. -/
theorem sanitizeLoop_subset :
    ∀ (prev : Option Nat) (l : List FailoverEntry) (x : FailoverEntry),
      x ∈ sanitizeLoop prev l → x ∈ l := by
  intro prev l
  induction l generalizing prev with
  | nil => intro x hx; cases hx
  | cons e rest ih =>
    intro x hx
    cases prev with
    | none =>
      rw [sanitizeLoop_cons_none] at hx
      by_cases h0 : e.vb_uuid = 0
      · rw [if_pos h0] at hx
        exact List.mem_cons_of_mem e (ih none x hx)
      · rw [if_neg h0] at hx
        cases hx with
        | head => exact List.mem_cons_self e rest
        | tail _ h => exact List.mem_cons_of_mem e (ih _ x h)
    | some p =>
      rw [sanitizeLoop_cons_some] at hx
      by_cases h0 : e.vb_uuid = 0
      · rw [if_pos h0] at hx
        exact List.mem_cons_of_mem e (ih _ x hx)
      · rw [if_neg h0] at hx
        by_cases hgt : e.by_seqno > p
        · rw [if_pos hgt] at hx
          exact List.mem_cons_of_mem e (ih _ x hx)
        · rw [if_neg hgt] at hx
          cases hx with
          | head => exact List.mem_cons_self e rest
          | tail _ h => exact List.mem_cons_of_mem e (ih _ x h)

/-- The sanitize loop never lengthens the table. -/
theorem sanitizeLoop_length :
    ∀ (prev : Option Nat) (l : List FailoverEntry),
      (sanitizeLoop prev l).length ≤ l.length := by
  intro prev l
  induction l generalizing prev with
  | nil => simp [show sanitizeLoop prev [] = [] from rfl]
  | cons e rest ih =>
    cases prev with
    | none =>
      rw [sanitizeLoop_cons_none]
      by_cases h0 : e.vb_uuid = 0
      · rw [if_pos h0]
        exact le_trans (ih none) (by simp)
      · rw [if_neg h0]
        simpa using ih (some e.by_seqno)
    | some p =>
      rw [sanitizeLoop_cons_some]
      by_cases h0 : e.vb_uuid = 0
      · rw [if_pos h0]
        exact le_trans (ih (some p)) (by simp)
      · rw [if_neg h0]
        by_cases hgt : e.by_seqno > p
        · rw [if_pos hgt]
          exact le_trans (ih (some p)) (by simp)
        · rw [if_neg hgt]
          simpa using ih (some e.by_seqno)

/-- Entries kept by the sanitize loop have nonzero UUIDs. -/
theorem sanitizeLoop_uuid :
    ∀ (prev : Option Nat) (l : List FailoverEntry) (x : FailoverEntry),
      x ∈ sanitizeLoop prev l → x.vb_uuid ≠ 0 := by
  intro prev l
  induction l generalizing prev with
  | nil => intro x hx; cases hx
  | cons e rest ih =>
    intro x hx
    cases prev with
    | none =>
      rw [sanitizeLoop_cons_none] at hx
      by_cases h0 : e.vb_uuid = 0
      · rw [if_pos h0] at hx
        exact ih none x hx
      · rw [if_neg h0] at hx
        cases hx with
        | head => exact h0
        | tail _ h => exact ih _ x h
    | some p =>
      rw [sanitizeLoop_cons_some] at hx
      by_cases h0 : e.vb_uuid = 0
      · rw [if_pos h0] at hx
        exact ih _ x hx
      · rw [if_neg h0] at hx
        by_cases hgt : e.by_seqno > p
        · rw [if_pos hgt] at hx
          exact ih _ x hx
        · rw [if_neg hgt] at hx
          cases hx with
          | head => exact h0
          | tail _ h => exact ih _ x h

/-- The sanitize loop leaves seqnos weakly decreasing; starting below a
bound `p` it also keeps every kept seqno at most `p`. -/
theorem sanitizeLoop_sorted :
    ∀ (l : List FailoverEntry),
      List.Pairwise (fun a b => b.by_seqno ≤ a.by_seqno) (sanitizeLoop none l) ∧
      ∀ p, List.Pairwise (fun a b => b.by_seqno ≤ a.by_seqno)
            (sanitizeLoop (some p) l) ∧
          ∀ x ∈ sanitizeLoop (some p) l, x.by_seqno ≤ p := by
  intro l
  induction l with
  | nil =>
    exact ⟨List.Pairwise.nil, fun p => ⟨List.Pairwise.nil, by intro x hx; cases hx⟩⟩
  | cons e rest ih =>
    constructor
    · rw [sanitizeLoop_cons_none]
      by_cases h0 : e.vb_uuid = 0
      · rw [if_pos h0]
        exact ih.1
      · rw [if_neg h0]
        refine List.pairwise_cons.mpr ⟨?_, (ih.2 e.by_seqno).1⟩
        exact (ih.2 e.by_seqno).2
    · intro p
      rw [sanitizeLoop_cons_some]
      by_cases h0 : e.vb_uuid = 0
      · rw [if_pos h0]
        exact ih.2 p
      · rw [if_neg h0]
        by_cases hgt : e.by_seqno > p
        · rw [if_pos hgt]
          exact ih.2 p
        · rw [if_neg hgt]
          constructor
          · refine List.pairwise_cons.mpr ⟨?_, (ih.2 e.by_seqno).1⟩
            exact (ih.2 e.by_seqno).2
          · intro x hx
            cases hx with
            | head => omega
            | tail _ hmem => exact le_trans ((ih.2 e.by_seqno).2 x hmem) (by omega)

/-- `createEntry` preserves the weakened invariant (the generated UUID is
nonzero by the regeneration loop). -/
theorem createEntry_inv {st : FailoverTable} {u hs : Nat}
    (hInv : tableInvariant st) (hu : u ≠ 0) :
    tableInvariant (createEntry u hs st) := by
  obtain ⟨hne, huu, hpw, hlen⟩ := hInv
  have hmax : 1 ≤ st.max_entries := by
    cases hl : st.table with
    | nil => exact absurd hl hne
    | cons a t => rw [hl] at hlen; simp at hlen; omega
  unfold createEntry tableInvariant
  obtain ⟨m, hm⟩ := Nat.exists_eq_succ_of_ne_zero (by omega : st.max_entries ≠ 0)
  refine ⟨?_, ?_, ?_, ?_⟩
  · rw [hm]
    simp [List.take_succ_cons]
  · intro x hx
    have hx2 := List.mem_of_mem_take hx
    cases hx2 with
    | head => exact hu
    | tail _ hmem => exact huu x (List.mem_of_mem_filter hmem)
  · refine List.Pairwise.sublist (List.take_sublist _ _) ?_
    refine List.pairwise_cons.mpr ⟨?_, ?_⟩
    · intro x hx
      have := List.of_mem_filter hx
      simp at this
      exact this
    · exact List.Pairwise.sublist (List.filter_sublist _) hpw
  · exact List.length_take_le _ _

/-- `pruneEntries` preserves the weakened invariant on success. -/
theorem pruneEntries_inv {st st' : FailoverTable} {s : Nat}
    (hInv : tableInvariant st) (h : pruneEntries st s = .ok st') :
    tableInvariant st' := by
  obtain ⟨hne, huu, hpw, hlen⟩ := hInv
  unfold pruneEntries at h
  split at h
  · cases h
  · split at h
    · cases h
    · split at h
      · cases h
      · rename_i e rest hfil
        cases h
        unfold tableInvariant
        refine ⟨by simp, ?_, ?_, ?_⟩
        · intro x hx
          rw [← hfil] at hx
          exact huu x (List.mem_of_mem_filter hx)
        · rw [← hfil]
          exact List.Pairwise.sublist (List.filter_sublist _) hpw
        · calc (e :: rest).length = (st.table.filter _).length := by rw [hfil]
            _ ≤ st.table.length := List.length_filter_le _ _
            _ ≤ st.max_entries := hlen

/-- `sanitizeFailoverTable` establishes the weakened invariant from any
within-capacity table. -/
theorem sanitize_inv {st : FailoverTable} {u hs : Nat} (hu : u ≠ 0)
    (hlen : st.table.length ≤ st.max_entries) (hmax : 1 ≤ st.max_entries) :
    tableInvariant (sanitizeFailoverTable u hs st) := by
  unfold sanitizeFailoverTable
  by_cases ht : sanitizeLoop none st.table = []
  · rw [if_pos ht]
    unfold createEntry tableInvariant
    obtain ⟨m, hm⟩ := Nat.exists_eq_succ_of_ne_zero (by omega : st.max_entries ≠ 0)
    rw [ht]
    refine ⟨?_, ?_, ?_, ?_⟩
    · simp [hm, List.take_succ_cons]
    · intro x hx
      rw [hm] at hx
      simp [List.take_succ_cons] at hx
      rw [hx]
      exact hu
    · refine List.Pairwise.sublist (List.take_sublist _ _) ?_
      simp
    · simp [List.length_take_le]
  · rw [if_neg ht]
    have base : tableInvariant
        ({ st with
            table := sanitizeLoop none st.table,
            erroneousEntriesErased := st.erroneousEntriesErased +
              (st.table.length - (sanitizeLoop none st.table).length) }) := by
      unfold tableInvariant
      refine ⟨ht, ?_, (sanitizeLoop_sorted st.table).1, ?_⟩
      · intro x hx
        exact sanitizeLoop_uuid none st.table x hx
      · exact le_trans (sanitizeLoop_length none st.table) hlen
    split
    · exact base
    · exact base

/-- C5 (amended): `createEntry` (nonzero generated UUID) and `pruneEntries`
preserve — and `sanitizeFailoverTable` establishes — the weakened table
invariant: nonempty, all UUIDs nonzero, seqnos weakly (not strictly)
decreasing from front to back, and size at most `maxEntries`;
`removeLatestEntry` can empty a single-entry table, and
`replaceFailoverLog`/`loadFromJSON` install the given records verbatim
without enforcing the UUID, monotonicity, or capacity invariants. -/
theorem c5_invariants_amended (st : FailoverTable) (u hs : Nat) (hu : u ≠ 0) :
    (tableInvariant st → tableInvariant (createEntry u hs st)) ∧
    (tableInvariant st →
      ∀ s st', pruneEntries st s = .ok st' → tableInvariant st') ∧
    (st.table.length ≤ st.max_entries → 1 ≤ st.max_entries →
      tableInvariant (sanitizeFailoverTable u hs st)) :=
  ⟨fun hInv => createEntry_inv hInv hu,
   fun hInv _ _ hp => pruneEntries_inv hInv hp,
   fun hlen hmax => sanitize_inv hu hlen hmax⟩

end FailoverTable

/-- C4 witness: the 32-byte buffer `buf32` decodes into two records with the
first record at the front. -/
theorem c4_replaceFailoverLog_spec_witness :
    ∃ st', FailoverTable.replaceFailoverLog buf32 ft42 = .ok st' ∧
      st'.table = (List.range (buf32.length / 16)).map
        (fun i => FailoverTable.decodeAt buf32 (16 * i)) ∧
      st'.table.head? = some (FailoverTable.decodeAt buf32 0) :=
  (FailoverTable.c4_replaceFailoverLog_spec buf32 ft42).1 ⟨by decide, by decide⟩

/-- C5 witness: creating an entry at seqno 9 with generated UUID 7 on the
fresh table `ft42` preserves the weakened invariant. -/
theorem c5_invariants_amended_witness :
    tableInvariant (FailoverTable.createEntry 7 9 ft42) :=
  (FailoverTable.c5_invariants_amended ft42 7 9 (by decide)).1
    (by refine ⟨by decide, by decide, ?_, by decide⟩
        simp [show ft42.table = [⟨42, 0⟩] from rfl])

/-- Unfolding equation of the validation overload on a JSON array. -/
theorem loadFromJSONParsed_arr (st : FailoverTable) (elems : List Json) :
    FailoverTable.loadFromJSONParsed st (Json.arr elems) =
      (match FailoverTable.parseEntries elems with
       | none => (false, st)
       | some [] => (false, st)
       | some (e :: rest) =>
         (true, { st with table := e :: rest, latest_uuid := e.vb_uuid })) := by
  conv_lhs => rw [FailoverTable.loadFromJSONParsed.eq_def]

/-- A failed validation pass of `loadFromJSON(json)` leaves the table state
untouched. -/
theorem loadFromJSONParsed_false (st : FailoverTable) (p : Json)
    (h : (FailoverTable.loadFromJSONParsed st p).1 = false) :
    (FailoverTable.loadFromJSONParsed st p).2 = st := by
  cases p with
  | arr elems =>
    rw [loadFromJSONParsed_arr] at h ⊢
    cases hp : FailoverTable.parseEntries elems with
    | none => simp only [hp]
    | some t =>
      simp only [hp] at h ⊢
      cases t with
      | nil => rfl
      | cons e rest => simp at h
  | null => rfl
  | bool b => rfl
  | num n => rfl
  | str s => rfl
  | obj fields => rfl

/-- C9 (amended): `pruneEntries(0)` and any prune whose survivors would be
fewer than one entry raise invalid-argument errors (throwing before any
mutation, so the table is unchanged); `loadFromJSON` on input that does not
parse mutates nothing, but on input that parses and then fails validation it
overwrites the cached JSON with the input string while leaving the table,
latest UUID and every other field unchanged. -/
theorem c9_failure_semantics (st : FailoverTable) :
    (∃ msg, FailoverTable.pruneEntries st 0 = .error (.invalidArgument msg)) ∧
    (∀ s, st.table.length -
        st.table.countP (fun e => decide (e.by_seqno > s)) < 1 →
      ∃ msg, FailoverTable.pruneEntries st s = .error (.invalidArgument msg)) ∧
    (∀ raw, FailoverTable.loadFromJSONString st raw none = (false, st)) ∧
    (∀ raw p, (FailoverTable.loadFromJSONParsed st p).1 = false →
      FailoverTable.loadFromJSONString st raw (some p) =
        (false, { st with cachedTableJSON := raw })) := by
  refine ⟨⟨_, by unfold FailoverTable.pruneEntries; rw [if_pos rfl]⟩, ?_, ?_, ?_⟩
  · intro s hs
    unfold FailoverTable.pruneEntries
    by_cases h0 : s = 0
    · rw [if_pos h0]
      exact ⟨_, rfl⟩
    · rw [if_neg h0, if_pos hs]
      exact ⟨_, rfl⟩
  · intro raw
    rfl
  · intro raw p h
    have h2 := loadFromJSONParsed_false st p h
    show ((FailoverTable.loadFromJSONParsed st p).1,
        { (FailoverTable.loadFromJSONParsed st p).2 with cachedTableJSON := raw }) =
      (false, { st with cachedTableJSON := raw })
    rw [h, h2]

/-- C9 witness: pruning `ft3` at seqno 99 (which would remove both entries)
is an invalid-argument error, and the failed validation load of "[]" on
`ft42` rewrites only the cached JSON. -/
theorem c9_failure_semantics_witness :
    (∃ msg, FailoverTable.pruneEntries ft3 99 = .error (.invalidArgument msg)) ∧
      FailoverTable.loadFromJSONString ft42 "[]" (some (Json.arr [])) =
        (false, { ft42 with cachedTableJSON := "[]" }) :=
  ⟨(c9_failure_semantics ft3).2.1 99 (by decide),
   (c9_failure_semantics ft42).2.2.2 "[]" (Json.arr []) rfl⟩

/-! Structural lemmas about the association-list helpers and the ADM
primitive operations, used to reason about the `processSeqnoAck` loop. -/

theorem assocFind_map {κ α β : Type} [DecidableEq κ] (l : List (κ × α))
    (f : α → β) (k : κ) :
    assocFind (l.map (fun p => (p.1, f p.2))) k = (assocFind l k).map f := by
  induction l with
  | nil => rfl
  | cons p rest ih =>
    by_cases h : p.1 = k
    · simp [assocFind, h]
    · simp [assocFind, h, ih]

theorem assocFind_update {κ α : Type} [DecidableEq κ] (l : List (κ × α))
    (k k' : κ) (f : α → α) :
    assocFind (assocUpdate l k f) k' =
      if k' = k then (assocFind l k).map f else assocFind l k' := by
  induction l with
  | nil =>
    by_cases h : k' = k <;> simp [assocUpdate, assocFind, h]
  | cons p rest ih =>
    obtain ⟨k0, v0⟩ := p
    by_cases h0 : k0 = k
    · subst h0
      by_cases h1 : k0 = k'
      · subst h1
        simp [assocUpdate, assocFind]
      · have h1' : ¬ (k' = k0) := fun he => h1 he.symm
        simp [assocUpdate, assocFind, h1, h1']
    · by_cases h1 : k0 = k'
      · subst h1
        simp [assocUpdate, assocFind, h0]
      · simp [assocUpdate, assocFind, h0, h1, ih]

theorem assocUpdate_congr_id {κ α : Type} [DecidableEq κ] (l : List (κ × α))
    (k : κ) (f : α → α) (h : ∀ v, assocFind l k = some v → f v = v) :
    assocUpdate l k f = l := by
  induction l with
  | nil => rfl
  | cons p rest ih =>
    obtain ⟨k0, v0⟩ := p
    by_cases h0 : k0 = k
    · have hfix : f v0 = v0 := h v0 (by simp [assocFind, h0])
      simp [assocUpdate, h0, hfix]
    · have hrest : assocUpdate rest k f = rest := by
        refine ih (fun v hv => h v ?_)
        simpa [assocFind, h0] using hv
      simp [assocUpdate, h0, hrest]

theorem getPos_setPos_same (np : NodePosition) (t : Tracking) (p : Position) :
    getPos (setPos np t p) t = p := by
  cases t <;> rfl

theorem getPos_setPos_other (np : NodePosition) {t t' : Tracking} (p : Position)
    (h : t' ≠ t) : getPos (setPos np t p) t' = getPos np t' := by
  cases t <;> cases t' <;> first | rfl | exact absurd rfl h

theorem setPos_getPos_self (np : NodePosition) (t : Tracking) :
    setPos np t (getPos np t) = np := by
  cases t <;> rfl

/-- `SyncWrite::ack` does not change the item (seqno, level, key) nor the
expiry time. -/
theorem ack_ok_item {sw sw' : SyncWrite} {node : String} {t : Tracking}
    (h : sw.ack node t = .ok sw') :
    sw'.item = sw.item ∧ sw'.expiryTime = sw.expiryTime := by
  cases t with
  | Memory =>
    unfold SyncWrite.ack at h
    cases hf : assocFind sw.acks node with
    | none =>
      simp only [hf] at h
      exact Except.noConfusion h
    | some a =>
      simp only [hf] at h
      by_cases hm : a.memory = true
      · simp only [if_pos hm] at h
        exact Except.noConfusion h
      · simp only [if_neg hm] at h
        cases h
        exact ⟨rfl, rfl⟩
  | Disk =>
    unfold SyncWrite.ack at h
    cases hf : assocFind sw.acks node with
    | none =>
      simp only [hf] at h
      exact Except.noConfusion h
    | some a =>
      simp only [hf] at h
      by_cases hm : a.disk = true
      · simp only [if_pos hm] at h
        exact Except.noConfusion h
      · simp only [if_neg hm] at h
        cases h
        exact ⟨rfl, rfl⟩

/-- Setting an index to an element with the same seqno leaves the seqno map
unchanged. -/
theorem seqnosOf_set {l : List SyncWrite} {j : Nat} {sw sw' : SyncWrite}
    (hget : l[j]? = some sw) (hsq : sw'.getBySeqno = sw.getBySeqno) :
    seqnosOf (l.set j sw') = seqnosOf l := by
  induction l generalizing j with
  | nil => cases hget
  | cons a rest ih =>
    cases j with
    | zero =>
      simp only [List.getElem?_cons_zero, Option.some.injEq] at hget
      subst hget
      simp [seqnosOf, hsq]
    | succ n =>
      simp only [List.getElem?_cons_succ] at hget
      simp [seqnosOf, List.set] at ih ⊢
      exact ih hget

/-- Complete description of a successful `advanceNodePosition`. -/
theorem advance_ok {st st' : AdmState} {node : String} {t : Tracking}
    (h : st.advanceNodePosition node t = .ok st') :
    ∃ ch np sw sw',
      st.firstChain = some ch ∧
      assocFind ch.positions node = some np ∧
      st.trackedWrites[advIdx (getPos np t).it]? = some sw ∧
      sw.ack node t = .ok sw' ∧
      st' = { st with
        trackedWrites := st.trackedWrites.set (advIdx (getPos np t).it) sw',
        firstChain := some
          { ch with positions := assocUpdate ch.positions node
                        (fun np2 => setPos np2 t
                          { it := some (advIdx (getPos np t).it),
                            lastWriteSeqno := sw.getBySeqno,
                            lastAckSeqno := (getPos np t).lastAckSeqno }) } } := by
  unfold AdmState.advanceNodePosition at h
  cases hch : st.firstChain with
  | none =>
    simp only [hch] at h
    exact Except.noConfusion h
  | some ch =>
    simp only [hch] at h
    cases hnp : assocFind ch.positions node with
    | none =>
      simp only [hnp] at h
      exact Except.noConfusion h
    | some np =>
      simp only [hnp] at h
      cases hg : st.trackedWrites[advIdx (getPos np t).it]? with
      | none =>
        simp only [hg] at h
        exact Except.noConfusion h
      | some sw =>
        simp only [hg] at h
        cases hack : sw.ack node t with
        | error e => rw [hack] at h; exact Except.noConfusion h
        | ok sw' =>
          rw [hack] at h
          replace h : Except.ok (ε := DmErr) ({ st with
            trackedWrites := st.trackedWrites.set (advIdx (getPos np t).it) sw',
            firstChain := some
              { ch with positions := assocUpdate ch.positions node
                            (fun np2 => setPos np2 t
                              { it := some (advIdx (getPos np t).it),
                                lastWriteSeqno := sw.getBySeqno,
                                lastAckSeqno := (getPos np t).lastAckSeqno }) } })
              = .ok st' := h
          cases h
          exact ⟨ch, np, sw, sw', rfl, hnp, hg, hack, rfl⟩

theorem assocFind_map_const {κ α β : Type} [DecidableEq κ] (l : List (κ × α))
    (c : β) (k : κ) :
    assocFind (l.map (fun p => (p.1, c))) k = (assocFind l k).map (fun _ => c) := by
  induction l with
  | nil => rfl
  | cons p rest ih =>
    by_cases h : p.1 = k
    · simp [assocFind, h]
    · simp [assocFind, h, ih]

theorem exceptBind_ok {ε α β : Type} (a : α) (f : α → Except ε β) :
    ((Except.ok a : Except ε α) >>= f) = f a := rfl

theorem advIdx_activeCursor {st : AdmState} {np : NodePosition}
    (hit : np.memory.it = (if st.trackedWrites.length = 0 then none
                           else some (st.trackedWrites.length - 1))) :
    advIdx np.memory.it = st.trackedWrites.length := by
  rw [hit]
  by_cases hl : st.trackedWrites.length = 0
  · simp [hl, advIdx]
  · rw [if_neg hl]
    simp [advIdx]
    omega

/-- C8 (amended): `addSyncWrite` fails — throwing before any mutation, so
the tracked list is unchanged — exactly when the item's durability level is
`None` or durability is impossible under the current topology (no chain
installed, or defined chain size below the majority).  The vBucket being in
replica state does not by itself make `addSyncWrite` fail (the operation
never consults the vBucket state). -/
theorem c8_addSyncWrite_iff (vbState : VBState) (st : AdmState) (cookie : Nat)
    (item : QueuedItem) (now : Int) (hcur : activeCursorOk st) :
    (∃ st', ADM.addSyncWrite vbState st cookie item now = .ok st') ↔
      (item.level ≠ .None ∧ ADM.isDurabilityPossible st = true) := by
  constructor
  · rintro ⟨st', h⟩
    unfold ADM.addSyncWrite at h
    by_cases h1 : item.level = .None
    · rw [if_pos h1] at h
      exact Except.noConfusion h
    · rw [if_neg h1] at h
      by_cases h2 : ADM.isDurabilityPossible st = true
      · exact ⟨h1, h2⟩
      · have hf : ADM.isDurabilityPossible st = false := by
          cases hb : ADM.isDurabilityPossible st
          · rfl
          · exact absurd hb h2
        rw [if_pos hf] at h
        exact Except.noConfusion h
  · rintro ⟨h1, h2⟩
    unfold ADM.addSyncWrite
    rw [if_neg h1]
    rw [if_neg (by rw [h2]; intro hc; exact Bool.noConfusion hc)]
    unfold ADM.isDurabilityPossible at h2
    cases hch : st.firstChain with
    | none =>
      rw [hch] at h2
      exact Bool.noConfusion h2
    | some ch =>
      rw [hch] at h2
      have hsz : ch.majority ≤ ch.positions.length := of_decide_eq_true h2
      obtain ⟨np, hnp, hit⟩ := hcur ch hch
      have e1 : st.addSyncWrite cookie item now = .ok
          { st with
            trackedWrites := st.trackedWrites ++
              [{ cookie := cookie, item := item,
                 acks := ch.positions.map (fun p => (p.1, ⟨false, false⟩)),
                 ackMemory := 0, ackDisk := 0,
                 majority := ch.majority,
                 expiryTime := item.timeout.map (fun tmo => now + tmo),
                 active := ch.active }],
            lastTrackedSeqno := item.bySeqno } := by
        unfold AdmState.addSyncWrite
        simp only [hch]
        unfold mkSyncWrite
        rw [if_neg (by omega)]
        rfl
      simp only [hch, e1, exceptBind_ok]
      have e2 : ∃ st2, AdmState.advanceNodePosition
          { trackedWrites := st.trackedWrites ++
              [{ cookie := cookie, item := item,
                 acks := ch.positions.map (fun p => (p.1, ⟨false, false⟩)),
                 ackMemory := 0, ackDisk := 0,
                 majority := ch.majority,
                 expiryTime := item.timeout.map (fun tmo => now + tmo),
                 active := ch.active }],
            firstChain := some ch,
            lastTrackedSeqno := item.bySeqno } ch.active .Memory = .ok st2 := by
        unfold AdmState.advanceNodePosition
        dsimp only
        simp only [hnp]
        rw [show (getPos np Tracking.Memory) = np.memory from rfl]
        rw [advIdx_activeCursor hit]
        rw [List.getElem?_concat_length]
        unfold SyncWrite.ack
        dsimp only
        rw [assocFind_map_const]
        rw [hnp]
        dsimp only [Option.map]
        exact ⟨_, rfl⟩
      obtain ⟨st2, he2⟩ := e2
      obtain ⟨ch2, np2, swA, swA', hch2, hnp2, hget2, hack2, hst2⟩ := advance_ok he2
      have e3 : ∃ st3, AdmState.updateNodeAck st2 ch.active .Memory item.bySeqno = .ok st3 := by
        unfold AdmState.updateNodeAck
        rw [hst2]
        dsimp only
        rw [assocFind_update]
        rw [if_pos rfl]
        rw [hnp2]
        exact ⟨_, rfl⟩
      obtain ⟨st3, he3⟩ := e3
      rw [he2]
      rw [exceptBind_ok]
      rw [he3]
      exact ⟨st3, rfl⟩

/-- C8 counterexample: with the topology installed and a Majority prepare,
`addSyncWrite` SUCCEEDS even though the vBucket is in replica state — the
claim that replica state is one of the failure cases is refuted (the
operation never consults the vBucket state). -/
theorem c8_replica_addSyncWrite_cex :
    ∃ st', ADM.addSyncWrite .replica admTopo 1 (prep .Majority "k" 5) 0 = .ok st' :=
  ⟨_, rfl⟩

/-- C8 witness: on the concrete installed-topology state the
characterization yields success for a Majority prepare. -/
theorem c8_addSyncWrite_iff_witness :
    ∃ st', ADM.addSyncWrite .active admTopo 2 (prep .Majority "k6" 6) 0 = .ok st' :=
  (c8_addSyncWrite_iff .active admTopo 2 (prep .Majority "k6" 6) 0
    (by intro ch hc; cases hc; exact ⟨_, rfl, rfl⟩)).mpr ⟨by decide, by rfl⟩

/-! Lemmas for the `processSeqnoAck` loop. -/

theorem remove_ok {st st2 : AdmState} {i : Nat} {swR : SyncWrite}
    (h : st.removeSyncWrite i = .ok (st2, swR)) :
    st.trackedWrites[i]? = some swR ∧
      st2.trackedWrites = st.trackedWrites.eraseIdx i ∧
      st2.firstChain = st.firstChain.map (fun ch =>
        { ch with positions := ch.positions.map (fun p =>
            (p.1, { memory := AdmState.repositionPos i p.2.memory,
                    disk := AdmState.repositionPos i p.2.disk })) }) ∧
      st2.lastTrackedSeqno = st.lastTrackedSeqno := by
  unfold AdmState.removeSyncWrite at h
  cases hg : st.trackedWrites[i]? with
  | none =>
    rw [hg] at h
    exact Except.noConfusion h
  | some sw =>
    rw [hg] at h
    cases h
    exact ⟨rfl, rfl, rfl, rfl⟩

/-- `cursorSucc` is the advanced-iterator index of the node's position. -/
theorem cursorSucc_eq {st : AdmState} {node : String} {ch : ReplicationChain}
    {np : NodePosition} (t : Tracking) (hch : st.firstChain = some ch)
    (hnp : assocFind ch.positions node = some np) :
    cursorSucc st node t = advIdx (getPos np t).it := by
  unfold cursorSucc nodeIt nodePos
  simp only [hch, hnp, Option.map]
  cases (getPos np t).it <;> rfl

/-- Element lookup after `eraseIdx` at or beyond the erased index. -/
theorem getElem?_eraseIdx_ge {α : Type} (l : List α) {i j : Nat}
    (hij : i ≤ j) (hi : i < l.length) : (l.eraseIdx i)[j]? = l[j + 1]? := by
  rw [List.eraseIdx_eq_take_drop_succ]
  have hlen : (l.take i).length = i := by
    rw [List.length_take]
    omega
  rw [List.getElem?_append_right (by omega)]
  rw [hlen, List.getElem?_drop]
  congr 1
  omega

/-- Seqno ordering of the tracked container, as a pairwise relation on the
SyncWrites themselves. -/
theorem pairwise_seqnos_iff (l : List SyncWrite) :
    List.Pairwise (· < ·) (seqnosOf l) ↔
      List.Pairwise (fun a b => a.getBySeqno < b.getBySeqno) l := by
  unfold seqnosOf
  exact List.pairwise_map

theorem assocFind_reposition (l : List (String × NodePosition)) (i : Nat)
    (k : String) :
    assocFind (l.map (fun p => (p.1,
        ({ memory := AdmState.repositionPos i p.2.memory,
           disk := AdmState.repositionPos i p.2.disk } : NodePosition)))) k =
      (assocFind l k).map (fun v =>
        { memory := AdmState.repositionPos i v.memory,
          disk := AdmState.repositionPos i v.disk }) := by
  induction l with
  | nil => rfl
  | cons p rest ih =>
    by_cases h : p.1 = k
    · simp [assocFind, h]
    · simp [assocFind, h, ih]

theorem assocFind_update_self {κ α : Type} [DecidableEq κ] {l : List (κ × α)}
    {k : κ} {v : α} (h : assocFind l k = some v) (f : α → α) :
    assocFind (assocUpdate l k f) k = some (f v) := by
  rw [assocFind_update, if_pos rfl, h]
  rfl

theorem ack_ok_seqno {sw sw' : SyncWrite} {node : String} {t : Tracking}
    (h : sw.ack node t = .ok sw') : sw'.getBySeqno = sw.getBySeqno := by
  unfold SyncWrite.getBySeqno
  rw [(ack_ok_item h).1]

/-- The `processSeqnoAck` loop collects commits in strictly increasing seqno
order and keeps the tracked container sorted.  The third hypothesis states
that everything already collected lies strictly below every element the
cursor has not yet passed. -/
theorem processLoop_sorted (node : String) (t : Tracking) (ack : Int) :
    ∀ (fuel : Nat) (st : AdmState) (acc : List SyncWrite)
      (st' : AdmState) (cs : List SyncWrite),
      processLoop node t ack fuel st acc = .ok (st', cs) →
      List.Pairwise (fun a b => a.getBySeqno < b.getBySeqno) st.trackedWrites →
      List.Pairwise (fun a b => a.getBySeqno < b.getBySeqno) acc →
      (∀ a ∈ acc, ∀ i, cursorSucc st node t ≤ i →
        ∀ sw, st.trackedWrites[i]? = some sw → a.getBySeqno < sw.getBySeqno) →
      List.Pairwise (fun a b => a.getBySeqno < b.getBySeqno) cs ∧
        List.Pairwise (fun a b => a.getBySeqno < b.getBySeqno) st'.trackedWrites := by
  intro fuel
  induction fuel with
  | zero =>
    intro st acc st' cs hrun hs ha hinv
    cases hrun
    exact ⟨ha, hs⟩
  | succ n ih =>
    intro st acc st' cs hrun hs ha hinv
    rw [processLoop] at hrun
    cases hn : st.getNodeNext node t with
    | error e =>
      rw [hn] at hrun
      exact Except.noConfusion hrun
    | ok next =>
      rw [hn, exceptBind_ok] at hrun
      cases next with
      | none =>
        cases hrun
        exact ⟨ha, hs⟩
      | some pair =>
        obtain ⟨j, nextSw⟩ := pair
        dsimp only at hrun
        by_cases hle : nextSw.getBySeqno ≤ ack
        · rw [if_pos hle] at hrun
          cases hadv : st.advanceNodePosition node t with
          | error e =>
            rw [hadv] at hrun
            exact Except.noConfusion hrun
          | ok st1 =>
            rw [hadv, exceptBind_ok] at hrun
            obtain ⟨ch, np, sw, sw', hch, hnp, hget, hack, hst1⟩ := advance_ok hadv
            have hn' := hn
            unfold AdmState.getNodeNext at hn'
            simp only [hch, hnp, hget] at hn'
            have hj : advIdx (getPos np t).it = j ∧ sw = nextSw := by
              cases hn'
              exact ⟨rfl, rfl⟩
            have hJlen : advIdx (getPos np t).it < st.trackedWrites.length := by
              by_contra hc
              rw [List.getElem?_eq_none (by omega)] at hget
              cases hget
            have hcur : cursorSucc st node t = advIdx (getPos np t).it :=
              cursorSucc_eq t hch hnp
            have hseq : sw'.getBySeqno = sw.getBySeqno := ack_ok_seqno hack
            subst hst1
            dsimp only at hrun
            simp only [assocFind_update_self hnp, getPos_setPos_same] at hrun
            rw [List.getElem?_set_eq_of_lt _ hJlen] at hrun
            dsimp only at hrun
            cases hsat : SyncWrite.isSatisfied sw' with
            | error e =>
              rw [hsat] at hrun
              exact Except.noConfusion hrun
            | ok b =>
              rw [hsat, exceptBind_ok] at hrun
              cases b with
              | false =>
                simp only [if_neg (Bool.false_ne_true)] at hrun
                refine ih _ acc st' cs hrun ?_ ha ?_
                · rw [← pairwise_seqnos_iff] at hs ⊢
                  dsimp only
                  rw [seqnosOf_set hget hseq]
                  exact hs
                · intro a hmem i hi swi hswi
                  dsimp only at hswi hi
                  have hcur1 : cursorSucc
                      ({ trackedWrites := st.trackedWrites.set (advIdx (getPos np t).it) sw',
                         firstChain := some
                           { ch with positions := assocUpdate ch.positions node
                                         (fun np2 => setPos np2 t
                                           { it := some (advIdx (getPos np t).it),
                                             lastWriteSeqno := sw.getBySeqno,
                                             lastAckSeqno := (getPos np t).lastAckSeqno }) },
                         lastTrackedSeqno := st.lastTrackedSeqno } : AdmState) node t =
                      advIdx (getPos np t).it + 1 := by
                    unfold cursorSucc nodeIt nodePos
                    dsimp only
                    simp only [assocFind_update_self hnp, Option.map,
                      getPos_setPos_same]
                  rw [hcur1] at hi
                  have hne : advIdx (getPos np t).it ≠ i := by omega
                  rw [List.getElem?_set_ne hne] at hswi
                  exact hinv a hmem i (by omega) swi hswi
              | true =>
                simp only [if_pos rfl] at hrun
                cases hrm : AdmState.removeSyncWrite
                    ({ trackedWrites := st.trackedWrites.set (advIdx (getPos np t).it) sw',
                       firstChain := some
                         { ch with positions := assocUpdate ch.positions node
                                       (fun np2 => setPos np2 t
                                         { it := some (advIdx (getPos np t).it),
                                           lastWriteSeqno := sw.getBySeqno,
                                           lastAckSeqno := (getPos np t).lastAckSeqno }) },
                       lastTrackedSeqno := st.lastTrackedSeqno } : AdmState)
                    (advIdx (getPos np t).it) with
                | error e =>
                  rw [hrm] at hrun
                  exact Except.noConfusion hrun
                | ok r =>
                  rw [hrm, exceptBind_ok] at hrun
                  obtain ⟨hgetR, htrR, hchR, hlastR⟩ := remove_ok hrm
                  have hr2 : r.2 = sw' := by
                    dsimp only at hgetR
                    rw [List.getElem?_set_eq_of_lt _ hJlen] at hgetR
                    exact (Option.some.inj hgetR).symm
                  refine ih _ (acc ++ [r.2]) st' cs hrun ?_ ?_ ?_
                  · rw [htrR]
                    dsimp only
                    refine List.Pairwise.sublist (List.eraseIdx_sublist _ _) ?_
                    rw [← pairwise_seqnos_iff] at hs ⊢
                    rw [seqnosOf_set hget hseq]
                    exact hs
                  · rw [List.pairwise_append]
                    refine ⟨ha, List.pairwise_singleton _ _, ?_⟩
                    intro a hmem b hb
                    rw [List.mem_singleton] at hb
                    subst hb
                    rw [hr2, hseq]
                    exact hinv a hmem _ (le_of_eq hcur) sw hget
                  · intro a hmem i hi swi hswi
                    have hitR : nodeIt r.1 node t = some
                        (AdmState.repositionIt (advIdx (getPos np t).it)
                          (some (advIdx (getPos np t).it))) := by
                      unfold nodeIt nodePos
                      rw [hchR]
                      dsimp only
                      simp only [assocFind_reposition, assocFind_update_self hnp,
                        Option.map]
                      cases t
                      · rfl
                      · rfl
                    have hrep : AdmState.repositionIt (advIdx (getPos np t).it)
                        (some (advIdx (getPos np t).it)) =
                        (if advIdx (getPos np t).it = 0 then none
                         else some (advIdx (getPos np t).it - 1)) := by
                      simp [AdmState.repositionIt]
                    have hcur2 : cursorSucc r.1 node t = advIdx (getPos np t).it := by
                      unfold cursorSucc
                      rw [hitR, hrep]
                      by_cases h0 : advIdx (getPos np t).it = 0
                      · rw [if_pos h0]
                        dsimp only
                        omega
                      · rw [if_neg h0]
                        dsimp only
                        omega
                    rw [hcur2] at hi
                    have hswi' : st.trackedWrites[i + 1]? = some swi := by
                      rw [htrR] at hswi
                      dsimp only at hswi
                      rw [getElem?_eraseIdx_ge _ hi (by simpa using hJlen)] at hswi
                      rwa [List.getElem?_set_ne (by omega)] at hswi
                    rcases List.mem_append.mp hmem with hmem | hmem
                    · exact hinv a hmem (i + 1) (by omega) swi hswi'
                    · rw [List.mem_singleton] at hmem
                      subst hmem
                      rw [hr2, hseq]
                      have hps := (pairwise_seqnos_iff st.trackedWrites).mp
                        ((pairwise_seqnos_iff st.trackedWrites).mpr hs)
                      have hlt : advIdx (getPos np t).it < i + 1 := by omega
                      have hi1len : i + 1 < st.trackedWrites.length := by
                        by_contra hc
                        rw [List.getElem?_eq_none (by omega)] at hswi'
                        cases hswi'
                      have := List.pairwise_iff_getElem.mp hs
                        (advIdx (getPos np t).it) (i + 1) hJlen hi1len hlt
                      rw [List.getElem?_eq_getElem hJlen] at hget
                      rw [List.getElem?_eq_getElem hi1len] at hswi'
                      rw [Option.some.inj hget] at this
                      rw [Option.some.inj hswi'] at this
                      exact this
        · rw [if_neg hle] at hrun
          cases hrun
          exact ⟨ha, hs⟩

/-- `updateNodeAck` never changes the tracked container. -/
theorem updateNodeAck_trackedWrites {st st2 : AdmState} {node : String}
    {t : Tracking} {s : Int}
    (h : AdmState.updateNodeAck st node t s = .ok st2) :
    st2.trackedWrites = st.trackedWrites := by
  unfold AdmState.updateNodeAck at h
  cases hch : st.firstChain with
  | none =>
    simp only [hch] at h
    exact Except.noConfusion h
  | some ch =>
    simp only [hch] at h
    cases hf : assocFind ch.positions node with
    | none =>
      simp only [hf] at h
      exact Except.noConfusion h
    | some np =>
      simp only [hf] at h
      rw [Except.ok.injEq] at h
      subst h
      rfl

/-- C2 (amended): within a single `processSeqnoAck` pass starting from an
empty to-commit list on a seqno-sorted tracked container, `vb.commit` is
invoked in strictly increasing seqno order, and the container stays sorted.
(Across the Memory and Disk passes of one `seqnoAckReceived`, or across
calls, a lower-seqno SyncWrite can be committed after a higher-seqno one,
as the counterexample shows.) -/
theorem c2_per_pass_commit_order (st : AdmState) (node : String) (t : Tracking)
    (ack : Int) (st' : AdmState) (cs : List SyncWrite)
    (hrun : AdmState.processSeqnoAck st node t ack [] = .ok (st', cs))
    (hs : List.Pairwise (fun a b => a.getBySeqno < b.getBySeqno)
      st.trackedWrites) :
    List.Pairwise (fun a b => a.getBySeqno < b.getBySeqno) cs ∧
      List.Pairwise (fun a b => a.getBySeqno < b.getBySeqno)
        st'.trackedWrites := by
  unfold AdmState.processSeqnoAck at hrun
  cases hch : st.firstChain with
  | none =>
    simp only [hch] at hrun
    exact Except.noConfusion hrun
  | some ch =>
    simp only [hch] at hrun
    cases hl : processLoop node t ack st.trackedWrites.length st [] with
    | error e =>
      rw [hl] at hrun
      exact Except.noConfusion hrun
    | ok r =>
      rw [hl, exceptBind_ok] at hrun
      cases hu : AdmState.updateNodeAck r.1 node t ack with
      | error e =>
        rw [hu] at hrun
        exact Except.noConfusion hrun
      | ok st2 =>
        rw [hu, exceptBind_ok] at hrun
        rw [Except.ok.injEq, Prod.mk.injEq] at hrun
        obtain ⟨h1, h2⟩ := hrun
        subst h1
        subst h2
        have hmain := processLoop_sorted node t ack st.trackedWrites.length
          st [] r.1 r.2 hl hs List.Pairwise.nil
          (by intro a ha; exact absurd ha (List.not_mem_nil a))
        exact ⟨hmain.1, by rw [updateNodeAck_trackedWrites hu]; exact hmain.2⟩

/-- C2 witness: the per-pass ordering theorem instantiated on the concrete
three-prepare run `c2wRun`. -/
theorem c2_per_pass_commit_order_witness :
    List.Pairwise (fun a b => a.getBySeqno < b.getBySeqno) c2wCs ∧
      List.Pairwise (fun a b => a.getBySeqno < b.getBySeqno)
        c2wSt.trackedWrites :=
  c2_per_pass_commit_order c7pre "r1" Tracking.Memory 11 c2wSt c2wCs
    (by rfl) (by decide)

/-! Lemmas for the idempotence of `seqnoAckReceived` (claim C7). -/

/-- Element lookup after `eraseIdx` strictly before the erased index. -/
theorem getElem?_eraseIdx_lt {α : Type} (l : List α) {i j : Nat}
    (hij : j < i) : (l.eraseIdx i)[j]? = l[j]? := by
  rw [List.eraseIdx_eq_take_drop_succ]
  by_cases hi : i ≤ l.length
  · have hlen : (l.take i).length = i := by
      rw [List.length_take]
      omega
    rw [List.getElem?_append_left (by omega), List.getElem?_take]
    rw [if_pos hij]
  · rw [List.take_of_length_le (by omega), List.drop_of_length_le (by omega),
      List.append_nil]

/-- A successful `getNodeNext` exposes the chain, the node position and the
looked-up element. -/
theorem getNodeNext_ok_dest {st : AdmState} {node : String} {t : Tracking}
    {r : Option (Nat × SyncWrite)}
    (h : AdmState.getNodeNext st node t = .ok r) :
    ∃ ch np, st.firstChain = some ch ∧
      assocFind ch.positions node = some np ∧
      ((st.trackedWrites[advIdx (getPos np t).it]? = none ∧ r = none) ∨
       (∃ sw, st.trackedWrites[advIdx (getPos np t).it]? = some sw ∧
         r = some (advIdx (getPos np t).it, sw))) := by
  unfold AdmState.getNodeNext at h
  cases hch : st.firstChain with
  | none =>
    simp only [hch] at h
    exact Except.noConfusion h
  | some ch =>
    simp only [hch] at h
    cases hf : assocFind ch.positions node with
    | none =>
      simp only [hf] at h
      exact Except.noConfusion h
    | some np =>
      simp only [hf] at h
      cases hg : st.trackedWrites[advIdx (getPos np t).it]? with
      | none =>
        simp only [hg] at h
        rw [Except.ok.injEq] at h
        exact ⟨ch, np, rfl, hf, Or.inl ⟨hg, h.symm⟩⟩
      | some sw =>
        simp only [hg] at h
        rw [Except.ok.injEq] at h
        exact ⟨ch, np, rfl, hf, Or.inr ⟨sw, hg, h.symm⟩⟩

/-- A state whose `getNodeNext` view of `(node, t)` agrees with another
state's inherits its falsified loop guard. -/
theorem noPending_congr {st st2 : AdmState} {node : String} {t : Tracking}
    {s : Int}
    (h : AdmState.getNodeNext st2 node t = AdmState.getNodeNext st node t)
    (hp : noPending st node t s) : noPending st2 node t s := by
  obtain ⟨r, hr, hd⟩ := hp
  exact ⟨r, by rw [h]; exact hr, hd⟩

/-- With the loop guard already false, `processSeqnoAck`'s while-loop exits
immediately, for every fuel. -/
theorem processLoop_noop {st : AdmState} {node : String} {t : Tracking}
    {s : Int} (h : noPending st node t s) :
    ∀ (fuel : Nat) (acc : List SyncWrite),
      processLoop node t s fuel st acc = .ok (st, acc) := by
  intro fuel acc
  cases fuel with
  | zero => rfl
  | succ n =>
    obtain ⟨r, hr, hd⟩ := h
    rw [processLoop, hr, exceptBind_ok]
    rcases hd with rfl | ⟨j, sw, rfl, hlt⟩
    · rfl
    · dsimp only
      rw [if_neg (not_le.mpr hlt)]

/-- A successful `updateNodeAck` exposes the chain and node position and
gives the complete result state. -/
theorem updateNodeAck_ok_dest {st st2 : AdmState} {node : String}
    {t : Tracking} {s : Int}
    (h : AdmState.updateNodeAck st node t s = .ok st2) :
    ∃ ch np, st.firstChain = some ch ∧
      assocFind ch.positions node = some np ∧
      st2 = { st with
        firstChain := some
          { ch with positions := assocUpdate ch.positions node
                        (fun np2 => setPos np2 t
                          { getPos np2 t with lastAckSeqno := s }) } } := by
  unfold AdmState.updateNodeAck at h
  cases hch : st.firstChain with
  | none =>
    simp only [hch] at h
    exact Except.noConfusion h
  | some ch =>
    simp only [hch] at h
    cases hf : assocFind ch.positions node with
    | none =>
      simp only [hf] at h
      exact Except.noConfusion h
    | some np =>
      simp only [hf] at h
      rw [Except.ok.injEq] at h
      exact ⟨ch, np, rfl, hf, h.symm⟩

/-- `updateNodeAck` leaves every `getNodeNext` view of the node unchanged:
it touches only the last-ack field of one position. -/
theorem updateNodeAck_next {st st2 : AdmState} {node : String} {t : Tracking}
    {s : Int} (h : AdmState.updateNodeAck st node t s = .ok st2)
    (t2 : Tracking) :
    AdmState.getNodeNext st2 node t2 = AdmState.getNodeNext st node t2 := by
  obtain ⟨ch, np, hch, hnp, hst2⟩ := updateNodeAck_ok_dest h
  subst hst2
  unfold AdmState.getNodeNext
  dsimp only
  simp only [hch, hnp, assocFind_update_self hnp]
  by_cases ht : t2 = t
  · subst ht
    rw [getPos_setPos_same]
  · rw [getPos_setPos_other _ _ ht]

/-- `updateNodeAck` records the given seqno as the node's last ack. -/
theorem updateNodeAck_lastAck {st st2 : AdmState} {node : String}
    {t : Tracking} {s : Int}
    (h : AdmState.updateNodeAck st node t s = .ok st2) :
    lastAckOf st2 node t = some s := by
  obtain ⟨ch, np, hch, hnp, hst2⟩ := updateNodeAck_ok_dest h
  subst hst2
  unfold lastAckOf nodePos
  dsimp only
  simp only [assocFind_update_self hnp, Option.map, getPos_setPos_same]

/-- `updateNodeAck` leaves the other tracking's last ack unchanged. -/
theorem updateNodeAck_lastAck_other {st st2 : AdmState} {node : String}
    {t t2 : Tracking} {s : Int} (ht : t2 ≠ t)
    (h : AdmState.updateNodeAck st node t s = .ok st2) :
    lastAckOf st2 node t2 = lastAckOf st node t2 := by
  obtain ⟨ch, np, hch, hnp, hst2⟩ := updateNodeAck_ok_dest h
  subst hst2
  unfold lastAckOf nodePos
  simp only [hch, hnp, assocFind_update_self hnp, Option.map]
  rw [getPos_setPos_other _ _ ht]

/-- The state produced by `updateNodeAck` still positions the node. -/
theorem updateNodeAck_ready {st st2 : AdmState} {node : String}
    {t : Tracking} {s : Int}
    (h : AdmState.updateNodeAck st node t s = .ok st2) :
    ∃ ch np, st2.firstChain = some ch ∧
      assocFind ch.positions node = some np := by
  obtain ⟨ch, np, hch, hnp, hst2⟩ := updateNodeAck_ok_dest h
  subst hst2
  exact ⟨_, _, rfl, assocFind_update_self hnp _⟩

/-- Re-recording an ack seqno that is already the node's last ack leaves the
state untouched. -/
theorem updateNodeAck_id {st : AdmState} {node : String} {t : Tracking}
    {s : Int} {ch : ReplicationChain} {np : NodePosition}
    (hch : st.firstChain = some ch)
    (hnp : assocFind ch.positions node = some np)
    (hack : (getPos np t).lastAckSeqno = s) :
    AdmState.updateNodeAck st node t s = .ok st := by
  unfold AdmState.updateNodeAck
  simp only [hch, hnp]
  have hupd : assocUpdate ch.positions node
      (fun np2 => setPos np2 t { getPos np2 t with lastAckSeqno := s }) =
      ch.positions := by
    apply assocUpdate_congr_id
    intro v hv
    rw [hnp, Option.some.injEq] at hv
    subst hv
    rw [← hack]
    exact setPos_getPos_self np t
  rw [hupd]
  have hcheq : ({ ch with positions := ch.positions } : ReplicationChain) =
      ch := rfl
  have hsteq : ({ st with firstChain := some ch } : AdmState) = st := by
    rw [← hch]
  rw [hcheq, hsteq]

/-- `getPos` commutes with the cursor repositioning done on removal. -/
theorem getPos_reposition (np : NodePosition) (k : Nat) (t : Tracking) :
    getPos { memory := AdmState.repositionPos k np.memory,
             disk := AdmState.repositionPos k np.disk } t =
      AdmState.repositionPos k (getPos np t) := by
  cases t <;> rfl

/-- Build a falsified loop guard from a `getNodeNext` computation of match
shape and a pointwise seqno bound at the looked-up index. -/
theorem noPending_match {st2 : AdmState} {node : String} {t2 : Tracking}
    {s : Int} {l2 : List SyncWrite} {m : Nat}
    (hn2 : AdmState.getNodeNext st2 node t2 =
      .ok (match l2[m]? with
           | none => none
           | some sw0 => some (m, sw0)))
    (hguard : ∀ sw0, l2[m]? = some sw0 → s < sw0.getBySeqno) :
    noPending st2 node t2 s := by
  cases hg : l2[m]? with
  | none =>
    refine ⟨none, ?_, Or.inl rfl⟩
    rw [hn2]
    simp only [hg]
  | some sw0 =>
    refine ⟨some (m, sw0), ?_, Or.inr ⟨m, sw0, rfl, hguard sw0 hg⟩⟩
    rw [hn2]
    simp only [hg]

/-- A falsified loop guard gives the pointwise seqno bound at the index
after the node's cursor. -/
theorem noPending_guard {st : AdmState} {node : String} {t2 : Tracking}
    {s : Int} {ch : ReplicationChain} {np : NodePosition}
    (hch : st.firstChain = some ch)
    (hnp : assocFind ch.positions node = some np)
    (hp : noPending st node t2 s) :
    ∀ sw0, st.trackedWrites[advIdx (getPos np t2).it]? = some sw0 →
      s < sw0.getBySeqno := by
  obtain ⟨r, hr, hd⟩ := hp
  obtain ⟨ch2, np2, hch2, hnp2, hcase⟩ := getNodeNext_ok_dest hr
  rw [hch] at hch2
  obtain rfl := Option.some.inj hch2
  rw [hnp] at hnp2
  obtain rfl := Option.some.inj hnp2
  intro sw0 hg
  rcases hcase with ⟨hg0, rfl⟩ | ⟨sw1, hg0, rfl⟩
  · rw [hg0] at hg
    exact Option.noConfusion hg
  · rcases hd with hnone | ⟨j2, sw2, heq, hlt⟩
    · exact Option.noConfusion hnone
    · have h1 : sw1 = sw0 := Option.some.inj (hg0.symm.trans hg)
      have h2 : sw1 = sw2 := congrArg Prod.snd (Option.some.inj heq)
      rw [← h1, h2]
      exact hlt

/-- Advancing the node's cursor at one tracking preserves the falsified
loop guard and the last ack of the other tracking. -/
theorem advance_frame {st st1 : AdmState} {node : String} {t t2 : Tracking}
    {s : Int} (ht : t2 ≠ t)
    (hadv : st.advanceNodePosition node t = .ok st1)
    (hp : noPending st node t2 s) :
    noPending st1 node t2 s ∧
      lastAckOf st1 node t2 = lastAckOf st node t2 := by
  obtain ⟨ch, np, sw, sw', hch, hnp, hget, hack, hst1⟩ := advance_ok hadv
  have hJlen : advIdx (getPos np t).it < st.trackedWrites.length := by
    by_contra hc
    rw [List.getElem?_eq_none (by omega)] at hget
    exact Option.noConfusion hget
  have guard := noPending_guard hch hnp hp
  have hn1 : AdmState.getNodeNext st1 node t2 =
      .ok (match (st.trackedWrites.set (advIdx (getPos np t).it)
              sw')[advIdx (getPos np t2).it]? with
           | none => none
           | some sw0 => some (advIdx (getPos np t2).it, sw0)) := by
    rw [hst1]
    unfold AdmState.getNodeNext
    dsimp only
    simp only [assocFind_update_self hnp]
    rw [getPos_setPos_other _ _ ht]
  have hl1 : lastAckOf st1 node t2 = lastAckOf st node t2 := by
    rw [hst1]
    unfold lastAckOf nodePos
    dsimp only
    simp only [hch, hnp, assocFind_update_self hnp, Option.map]
    rw [getPos_setPos_other _ _ ht]
  refine ⟨noPending_match hn1 ?_, hl1⟩
  intro sw0 hg2
  by_cases hmJ : advIdx (getPos np t2).it = advIdx (getPos np t).it
  · rw [hmJ, List.getElem?_set_eq_of_lt _ hJlen] at hg2
    obtain rfl := Option.some.inj hg2
    rw [ack_ok_seqno hack]
    exact guard sw (by rw [hmJ]; exact hget)
  · rw [List.getElem?_set_ne (fun he => hmJ he.symm)] at hg2
    exact guard sw0 hg2

/-- Removing a tracked SyncWrite whose seqno is within the acked seqno
preserves the falsified loop guard and the node's last acks. -/
theorem erase_frame {st st2 : AdmState} {node : String} {t2 : Tracking}
    {s : Int} {k : Nat} {swR : SyncWrite}
    (hrm : st.removeSyncWrite k = .ok (st2, swR))
    (hseq : swR.getBySeqno ≤ s)
    (hp : noPending st node t2 s) :
    noPending st2 node t2 s ∧
      lastAckOf st2 node t2 = lastAckOf st node t2 := by
  obtain ⟨hgetR, htr, hchR, hlastR⟩ := remove_ok hrm
  obtain ⟨r, hr, hd⟩ := hp
  obtain ⟨ch, np, hch, hnp, hcase0⟩ := getNodeNext_ok_dest hr
  have guard := noPending_guard hch hnp ⟨r, hr, hd⟩
  have hklen : k < st.trackedWrites.length := by
    by_contra hc
    rw [List.getElem?_eq_none (by omega)] at hgetR
    exact Option.noConfusion hgetR
  rw [hch] at hchR
  simp only [Option.map] at hchR
  have hn2 : AdmState.getNodeNext st2 node t2 =
      .ok (match (st.trackedWrites.eraseIdx
              k)[advIdx (AdmState.repositionIt k (getPos np t2).it)]? with
           | none => none
           | some sw0 =>
             some (advIdx (AdmState.repositionIt k (getPos np t2).it), sw0)) := by
    unfold AdmState.getNodeNext
    simp only [hchR, assocFind_reposition, hnp, Option.map]
    rw [getPos_reposition, htr]
    rfl
  have hl2 : lastAckOf st2 node t2 = lastAckOf st node t2 := by
    unfold lastAckOf nodePos
    simp only [hchR, hch, assocFind_reposition, hnp, Option.map]
    rw [getPos_reposition]
    rfl
  refine ⟨noPending_match hn2 ?_, hl2⟩
  intro sw0 hg2
  cases hit : (getPos np t2).it with
  | none =>
    rw [hit] at hg2
    have hrep0 : AdmState.repositionIt k (none : Option Nat) = none := rfl
    rw [hrep0] at hg2
    simp only [advIdx] at hg2
    have hk0 : 0 < k := by
      rcases Nat.eq_zero_or_pos k with hk | hk
      · exfalso
        subst hk
        have := guard swR (by rw [hit]; simp only [advIdx]; exact hgetR)
        omega
      · exact hk
    rw [getElem?_eraseIdx_lt _ hk0] at hg2
    exact guard sw0 (by rw [hit]; simp only [advIdx]; exact hg2)
  | some j =>
    rw [hit] at hg2
    by_cases hjk : j = k
    · subst hjk
      have hm2 : advIdx (AdmState.repositionIt j (some j)) = j := by
        by_cases hj0 : j = 0
        · subst hj0
          rfl
        · have hone : AdmState.repositionIt j (some j) = some (j - 1) := by
            simp [AdmState.repositionIt, hj0]
          rw [hone]
          simp only [advIdx]
          omega
      rw [hm2] at hg2
      rw [getElem?_eraseIdx_ge _ (le_refl j) hklen] at hg2
      exact guard sw0 (by rw [hit]; simp only [advIdx]; exact hg2)
    · by_cases hkj : k < j
      · have hrep : AdmState.repositionIt k (some j) = some (j - 1) := by
          simp [AdmState.repositionIt, hjk, hkj]
        rw [hrep] at hg2
        simp only [advIdx] at hg2
        have hidx : j - 1 + 1 = j := by omega
        rw [hidx] at hg2
        rw [getElem?_eraseIdx_ge _ (by omega) hklen] at hg2
        exact guard sw0 (by rw [hit]; simp only [advIdx]; exact hg2)
      · have hrep : AdmState.repositionIt k (some j) = some j := by
          simp [AdmState.repositionIt, hjk, hkj]
        rw [hrep] at hg2
        simp only [advIdx] at hg2
        by_cases hj1 : j + 1 = k
        · exfalso
          have := guard swR
            (by rw [hit]; simp only [advIdx]; rw [hj1]; exact hgetR)
          omega
        · rw [getElem?_eraseIdx_lt _ (by omega)] at hg2
          exact guard sw0 (by rw [hit]; simp only [advIdx]; exact hg2)

/-- The `processSeqnoAck` loop at one tracking preserves the falsified
guard and the last ack of the other tracking for the same node. -/
theorem processLoop_frame (node : String) (t t2 : Tracking) (ht : t2 ≠ t)
    (s : Int) :
    ∀ (fuel : Nat) (st : AdmState) (acc : List SyncWrite) (st' : AdmState)
      (cs : List SyncWrite),
      processLoop node t s fuel st acc = .ok (st', cs) →
      noPending st node t2 s →
      noPending st' node t2 s ∧
        lastAckOf st' node t2 = lastAckOf st node t2 := by
  intro fuel
  induction fuel with
  | zero =>
    intro st acc st' cs hrun hp
    cases hrun
    exact ⟨hp, rfl⟩
  | succ n ih =>
    intro st acc st' cs hrun hp
    rw [processLoop] at hrun
    cases hn : st.getNodeNext node t with
    | error e =>
      rw [hn] at hrun
      exact Except.noConfusion hrun
    | ok next =>
      rw [hn, exceptBind_ok] at hrun
      cases next with
      | none =>
        cases hrun
        exact ⟨hp, rfl⟩
      | some pair =>
        obtain ⟨j, nextSw⟩ := pair
        dsimp only at hrun
        by_cases hle : nextSw.getBySeqno ≤ s
        · rw [if_pos hle] at hrun
          cases hadv : st.advanceNodePosition node t with
          | error e =>
            rw [hadv] at hrun
            exact Except.noConfusion hrun
          | ok st1 =>
            rw [hadv, exceptBind_ok] at hrun
            obtain ⟨hp1, heq1⟩ := advance_frame ht hadv hp
            obtain ⟨ch, np, sw, sw', hch, hnp, hget, hack, hst1⟩ :=
              advance_ok hadv
            have hn' := hn
            unfold AdmState.getNodeNext at hn'
            simp only [hch, hnp, hget] at hn'
            have hj : advIdx (getPos np t).it = j ∧ sw = nextSw := by
              cases hn'
              exact ⟨rfl, rfl⟩
            have hJlen : advIdx (getPos np t).it <
                st.trackedWrites.length := by
              by_contra hc
              rw [List.getElem?_eq_none (by omega)] at hget
              cases hget
            have hseq : sw'.getBySeqno = sw.getBySeqno := ack_ok_seqno hack
            subst hst1
            dsimp only at hrun
            simp only [assocFind_update_self hnp, getPos_setPos_same] at hrun
            rw [List.getElem?_set_eq_of_lt _ hJlen] at hrun
            dsimp only at hrun
            cases hsat : SyncWrite.isSatisfied sw' with
            | error e =>
              rw [hsat] at hrun
              exact Except.noConfusion hrun
            | ok b =>
              rw [hsat, exceptBind_ok] at hrun
              cases b with
              | false =>
                simp only [if_neg (Bool.false_ne_true)] at hrun
                obtain ⟨hp2, heq2⟩ := ih _ acc st' cs hrun hp1
                exact ⟨hp2, heq2.trans heq1⟩
              | true =>
                simp only [if_pos rfl] at hrun
                cases hrm : AdmState.removeSyncWrite
                    ({ trackedWrites := st.trackedWrites.set (advIdx (getPos np t).it) sw',
                       firstChain := some
                         { ch with positions := assocUpdate ch.positions node
                                       (fun np2 => setPos np2 t
                                         { it := some (advIdx (getPos np t).it),
                                           lastWriteSeqno := sw.getBySeqno,
                                           lastAckSeqno := (getPos np t).lastAckSeqno }) },
                       lastTrackedSeqno := st.lastTrackedSeqno } : AdmState)
                    (advIdx (getPos np t).it) with
                | error e =>
                  rw [hrm] at hrun
                  exact Except.noConfusion hrun
                | ok r =>
                  rw [hrm, exceptBind_ok] at hrun
                  have hr2 : r.2 = sw' := by
                    obtain ⟨hgetR, htrR, hchR, hlastR⟩ := remove_ok hrm
                    dsimp only at hgetR
                    rw [List.getElem?_set_eq_of_lt _ hJlen] at hgetR
                    exact (Option.some.inj hgetR).symm
                  have hseqR : r.2.getBySeqno ≤ s := by
                    rw [hr2, hseq, hj.2]
                    exact hle
                  obtain ⟨hp3, heq3⟩ := erase_frame hrm hseqR hp1
                  obtain ⟨hp4, heq4⟩ := ih _ (acc ++ [r.2]) st' cs hrun hp3
                  exact ⟨hp4, (heq4.trans heq3).trans heq1⟩
        · rw [if_neg hle] at hrun
          cases hrun
          exact ⟨hp, rfl⟩

/-- When the `processSeqnoAck` loop returns with fuel at least the loop
measure (elements the cursor has not passed), the guard is false in the
final state.  The readiness hypothesis says the final state still positions
the node. -/
theorem processLoop_exit (node : String) (t : Tracking) (s : Int) :
    ∀ (fuel : Nat) (st : AdmState) (acc : List SyncWrite) (st' : AdmState)
      (cs : List SyncWrite),
      processLoop node t s fuel st acc = .ok (st', cs) →
      admMeasure st node t ≤ fuel →
      (∃ ch np, st'.firstChain = some ch ∧
        assocFind ch.positions node = some np) →
      noPending st' node t s := by
  intro fuel
  induction fuel with
  | zero =>
    intro st acc st' cs hrun hm hready
    cases hrun
    obtain ⟨ch, np, hch, hnp⟩ := hready
    have hcur : cursorSucc st node t = advIdx (getPos np t).it :=
      cursorSucc_eq t hch hnp
    unfold admMeasure at hm
    rw [hcur] at hm
    refine ⟨none, ?_, Or.inl rfl⟩
    unfold AdmState.getNodeNext
    simp only [hch, hnp]
    rw [List.getElem?_eq_none (by omega)]
  | succ n ih =>
    intro st acc st' cs hrun hm hready
    rw [processLoop] at hrun
    cases hn : st.getNodeNext node t with
    | error e =>
      rw [hn] at hrun
      exact Except.noConfusion hrun
    | ok next =>
      rw [hn, exceptBind_ok] at hrun
      cases next with
      | none =>
        cases hrun
        exact ⟨none, hn, Or.inl rfl⟩
      | some pair =>
        obtain ⟨j, nextSw⟩ := pair
        dsimp only at hrun
        by_cases hle : nextSw.getBySeqno ≤ s
        · rw [if_pos hle] at hrun
          cases hadv : st.advanceNodePosition node t with
          | error e =>
            rw [hadv] at hrun
            exact Except.noConfusion hrun
          | ok st1 =>
            rw [hadv, exceptBind_ok] at hrun
            obtain ⟨ch, np, sw, sw', hch, hnp, hget, hack, hst1⟩ :=
              advance_ok hadv
            have hJlen : advIdx (getPos np t).it <
                st.trackedWrites.length := by
              by_contra hc
              rw [List.getElem?_eq_none (by omega)] at hget
              cases hget
            have hcur : cursorSucc st node t = advIdx (getPos np t).it :=
              cursorSucc_eq t hch hnp
            unfold admMeasure at hm
            rw [hcur] at hm
            have hseq : sw'.getBySeqno = sw.getBySeqno := ack_ok_seqno hack
            subst hst1
            dsimp only at hrun
            simp only [assocFind_update_self hnp, getPos_setPos_same] at hrun
            rw [List.getElem?_set_eq_of_lt _ hJlen] at hrun
            dsimp only at hrun
            cases hsat : SyncWrite.isSatisfied sw' with
            | error e =>
              rw [hsat] at hrun
              exact Except.noConfusion hrun
            | ok b =>
              rw [hsat, exceptBind_ok] at hrun
              cases b with
              | false =>
                simp only [if_neg (Bool.false_ne_true)] at hrun
                refine ih _ acc st' cs hrun ?_ hready
                have hcur1 : cursorSucc
                    ({ trackedWrites := st.trackedWrites.set (advIdx (getPos np t).it) sw',
                       firstChain := some
                         { ch with positions := assocUpdate ch.positions node
                                       (fun np2 => setPos np2 t
                                         { it := some (advIdx (getPos np t).it),
                                           lastWriteSeqno := sw.getBySeqno,
                                           lastAckSeqno := (getPos np t).lastAckSeqno }) },
                       lastTrackedSeqno := st.lastTrackedSeqno } : AdmState) node t =
                    advIdx (getPos np t).it + 1 := by
                  unfold cursorSucc nodeIt nodePos
                  dsimp only
                  simp only [assocFind_update_self hnp, Option.map,
                    getPos_setPos_same]
                unfold admMeasure
                rw [hcur1]
                dsimp only
                rw [List.length_set]
                omega
              | true =>
                simp only [if_pos rfl] at hrun
                cases hrm : AdmState.removeSyncWrite
                    ({ trackedWrites := st.trackedWrites.set (advIdx (getPos np t).it) sw',
                       firstChain := some
                         { ch with positions := assocUpdate ch.positions node
                                       (fun np2 => setPos np2 t
                                         { it := some (advIdx (getPos np t).it),
                                           lastWriteSeqno := sw.getBySeqno,
                                           lastAckSeqno := (getPos np t).lastAckSeqno }) },
                       lastTrackedSeqno := st.lastTrackedSeqno } : AdmState)
                    (advIdx (getPos np t).it) with
                | error e =>
                  rw [hrm] at hrun
                  exact Except.noConfusion hrun
                | ok r =>
                  rw [hrm, exceptBind_ok] at hrun
                  obtain ⟨hgetR, htrR, hchR, hlastR⟩ := remove_ok hrm
                  refine ih _ (acc ++ [r.2]) st' cs hrun ?_ hready
                  have hitR : nodeIt r.1 node t = some
                      (AdmState.repositionIt (advIdx (getPos np t).it)
                        (some (advIdx (getPos np t).it))) := by
                    unfold nodeIt nodePos
                    rw [hchR]
                    dsimp only
                    simp only [assocFind_reposition, assocFind_update_self hnp,
                      Option.map]
                    cases t
                    · rfl
                    · rfl
                  have hrep : AdmState.repositionIt (advIdx (getPos np t).it)
                      (some (advIdx (getPos np t).it)) =
                      (if advIdx (getPos np t).it = 0 then none
                       else some (advIdx (getPos np t).it - 1)) := by
                    simp [AdmState.repositionIt]
                  have hcur2 : cursorSucc r.1 node t =
                      advIdx (getPos np t).it := by
                    unfold cursorSucc
                    rw [hitR, hrep]
                    by_cases h0 : advIdx (getPos np t).it = 0
                    · rw [if_pos h0]
                      dsimp only
                      omega
                    · rw [if_neg h0]
                      dsimp only
                      omega
                  have hlenR : r.1.trackedWrites.length =
                      st.trackedWrites.length - 1 := by
                    rw [htrR]
                    dsimp only
                    rw [List.length_eraseIdx]
                    simp [hJlen]
                  unfold admMeasure
                  rw [hcur2, hlenR]
                  omega
        · rw [if_neg hle] at hrun
          cases hrun
          exact ⟨some (j, nextSw), hn, Or.inr ⟨j, nextSw, rfl, not_le.mp hle⟩⟩

/-- A successful `processSeqnoAck` splits into a loop run followed by the
ack update. -/
theorem processSeqnoAck_ok_dest {st : AdmState} {node : String}
    {t : Tracking} {s : Int} {acc : List SyncWrite}
    {r : AdmState × List SyncWrite}
    (h : AdmState.processSeqnoAck st node t s acc = .ok r) :
    ∃ rm, processLoop node t s st.trackedWrites.length st acc = .ok rm ∧
      AdmState.updateNodeAck rm.1 node t s = .ok r.1 ∧ r.2 = rm.2 := by
  unfold AdmState.processSeqnoAck at h
  cases hch : st.firstChain with
  | none =>
    simp only [hch] at h
    exact Except.noConfusion h
  | some ch =>
    simp only [hch] at h
    cases hl : processLoop node t s st.trackedWrites.length st acc with
    | error e =>
      rw [hl] at h
      exact Except.noConfusion h
    | ok rm =>
      rw [hl, exceptBind_ok] at h
      cases hu : AdmState.updateNodeAck rm.1 node t s with
      | error e =>
        rw [hu] at h
        exact Except.noConfusion h
      | ok st2 =>
        rw [hu, exceptBind_ok, Except.ok.injEq] at h
        refine ⟨rm, rfl, ?_, ?_⟩
        · rw [← h]
          exact hu
        · rw [← h]

/-- With the loop guard already false and the last ack already recorded,
`processSeqnoAck` leaves the state untouched and adds no commits. -/
theorem processSeqnoAck_build {st : AdmState} {node : String} {t : Tracking}
    {s : Int} {ch : ReplicationChain} {np : NodePosition}
    (hch : st.firstChain = some ch)
    (hnp : assocFind ch.positions node = some np)
    (hp : noPending st node t s)
    (hack : (getPos np t).lastAckSeqno = s) (acc : List SyncWrite) :
    AdmState.processSeqnoAck st node t s acc = .ok (st, acc) := by
  unfold AdmState.processSeqnoAck
  simp only [hch]
  rw [processLoop_noop hp _ acc, exceptBind_ok]
  dsimp only
  rw [updateNodeAck_id hch hnp hack, exceptBind_ok]

/-- Read off the recorded last-ack value of a positioned node. -/
theorem lastAck_val {st : AdmState} {node : String} {t : Tracking} {s : Int}
    {ch : ReplicationChain} {np : NodePosition}
    (hch : st.firstChain = some ch)
    (hnp : assocFind ch.positions node = some np)
    (hl : lastAckOf st node t = some s) :
    (getPos np t).lastAckSeqno = s := by
  unfold lastAckOf nodePos at hl
  simp only [hch, hnp, Option.map] at hl
  exact Option.some.inj hl

/-- C7: `seqnoAckReceived(node, s)` is idempotent — repeated immediately
with the same node and seqno it leaves the state exactly as it was (no
cursor advances, no new acks) and returns an empty to-commit list. -/
theorem c7_repeat_seqnoAck_noop {st st1 : AdmState} {node : String} {s : Int}
    {cs : List SyncWrite}
    (h : ADM.seqnoAckReceived st node s = .ok (st1, cs)) :
    ADM.seqnoAckReceived st1 node s = .ok (st1, []) := by
  unfold ADM.seqnoAckReceived at h
  cases h1 : AdmState.processSeqnoAck st node .Memory s [] with
  | error e =>
    rw [h1] at h
    exact Except.noConfusion h
  | ok r1 =>
    rw [h1, exceptBind_ok] at h
    cases h2 : AdmState.processSeqnoAck r1.1 node .Disk s r1.2 with
    | error e =>
      rw [h2] at h
      exact Except.noConfusion h
    | ok r2 =>
      rw [h2, exceptBind_ok, Except.ok.injEq] at h
      obtain ⟨rm, hL1, hU1, hcs1⟩ := processSeqnoAck_ok_dest h1
      obtain ⟨rd, hL2, hU2, hcs2⟩ := processSeqnoAck_ok_dest h2
      obtain ⟨chm, npm, hchm, hnpm, hstm⟩ := updateNodeAck_ok_dest hU1
      obtain ⟨chd, npd, hchd, hnpd, hstd⟩ := updateNodeAck_ok_dest hU2
      have P1a : noPending rm.1 node .Memory s :=
        processLoop_exit node .Memory s st.trackedWrites.length st [] rm.1
          rm.2 hL1 (Nat.sub_le _ _) ⟨chm, npm, hchm, hnpm⟩
      have P1b : noPending r1.1 node .Memory s :=
        noPending_congr (updateNodeAck_next hU1 .Memory) P1a
      have P3a : lastAckOf r1.1 node .Memory = some s :=
        updateNodeAck_lastAck hU1
      obtain ⟨P1c, heqM⟩ := processLoop_frame node .Disk .Memory
        (by intro hx; exact Tracking.noConfusion hx) s
        r1.1.trackedWrites.length r1.1 r1.2 rd.1 rd.2 hL2 P1b
      have P2a : noPending rd.1 node .Disk s :=
        processLoop_exit node .Disk s r1.1.trackedWrites.length r1.1 r1.2
          rd.1 rd.2 hL2 (Nat.sub_le _ _) ⟨chd, npd, hchd, hnpd⟩
      have hst1 : r2.1 = st1 := by rw [h]
      have P1 : noPending st1 node .Memory s := by
        rw [← hst1]
        exact noPending_congr (updateNodeAck_next hU2 .Memory) P1c
      have P2 : noPending st1 node .Disk s := by
        rw [← hst1]
        exact noPending_congr (updateNodeAck_next hU2 .Disk) P2a
      have P4 : lastAckOf st1 node .Disk = some s := by
        rw [← hst1]
        exact updateNodeAck_lastAck hU2
      have P3 : lastAckOf st1 node .Memory = some s := by
        rw [← hst1]
        rw [updateNodeAck_lastAck_other
          (by intro hx; exact Tracking.noConfusion hx) hU2]
        rw [heqM]
        exact P3a
      have hready1 : ∃ ch np, st1.firstChain = some ch ∧
          assocFind ch.positions node = some np := by
        rw [← hst1]
        exact updateNodeAck_ready hU2
      obtain ⟨ch1, np1, hch1, hnp1⟩ := hready1
      unfold ADM.seqnoAckReceived
      rw [processSeqnoAck_build hch1 hnp1 P1 (lastAck_val hch1 hnp1 P3) [],
        exceptBind_ok]
      dsimp only
      rw [processSeqnoAck_build hch1 hnp1 P2 (lastAck_val hch1 hnp1 P4) [],
        exceptBind_ok]

/-- C7 witness: re-acking seqno 11 from `r1` on the post-state of the first
`seqnoAckReceived("r1", 11)` run changes nothing and commits nothing. -/
theorem c7_repeat_seqnoAck_noop_witness :
    ADM.seqnoAckReceived c7post "r1" 11 = .ok (c7post, []) :=
  @c7_repeat_seqnoAck_noop c7pre c7post "r1" 11 c7commits (by rfl)
